import Mathlib

/-!
# qr-gen: rendering a module grid into PNG rows

A shallow embedding of `src/main.cpp`: the function `savePng`, which maps a
square grid of dark/light modules to the rows it hands to the streaming PNG
encoder, and `main`, which reads the command line and calls it.

* C++ `int` is a Lean `Int`; the places where the source can leave the 32-bit
  range wrap by `wrapInt` (two's complement, which is what the usual compilers
  produce for the signed overflow that the language leaves undefined),
  `static_cast<std::uint32_t>` is `toUint32` and `size_t` arithmetic is taken
  modulo `2 ^ 64`.
* The three partial operations of the pixel loop (integer division, indexing
  the row buffer, querying the grid) return a `Fault` when they are used
  outside their domain, so that "cannot fail" is a statement about a run.
* The collaborators that are not part of `main.cpp` are parameters: the grid
  (`QrCode`), the PNG encoder (`TinyPngOut`), the symbol encoder and the
  outcome of opening the output file.
* A row buffer whose length is within `max_size()` is taken to be allocated:
  exhaustion of storage (`std::bad_alloc`) is outside the model. A length beyond
  `max_size()` throws `std::length_error`, as in the standard library.
* Every exception of a collaborator is a `std::exception`, the only kind the
  source catches.
-/

namespace QrGen

/-! ## Machine integers -/

/-- Largest value of a C++ `int`. -/
def INT_MAX : Int := 2147483647

/-- Value of a 32-bit `int` computation after two's-complement wrap-around. -/
def wrapInt (x : Int) : Int := (x + 2147483648) % 4294967296 - 2147483648

/-- Conversion `static_cast<std::uint32_t>(x)`. -/
def toUint32 (x : Int) : Nat := (x % 4294967296).toNat

/-- Number of values of `size_t` (64-bit target). -/
def SIZE_MOD : Nat := 18446744073709551616

/-- Conversion `static_cast<size_t>(x)`. -/
def toSizeT (x : Int) : Nat := (x % (SIZE_MOD : Int)).toNat

/-- Multiplication of two `size_t` values. -/
def sizeMul (a b : Nat) : Nat := (a * b) % SIZE_MOD

/-- Addition of two `size_t` values. -/
def sizeAdd (a b : Nat) : Nat := (a + b) % SIZE_MOD

/-- Largest length `std::vector<std::uint8_t>` accepts (`max_size()`); a larger
request throws `std::length_error`. -/
def VECTOR_MAX_SIZE : Nat := 9223372036854775807

/-! ## Faults of the partial operations -/

/-- The ways a partial operation of the pixel loop can go wrong. -/
inductive Fault where
  | divideByZero
  | rowIndexOutOfRange
  | moduleOutOfRange
  deriving DecidableEq

/-- Integer division `a / b` of two `int`s: truncating, undefined for `b = 0`. -/
def intDiv (a b : Int) : Except Fault Int :=
  if b = 0 then .error .divideByZero else .ok (wrapInt (Int.tdiv a b))

/-- Store `row[i] = v` into the row buffer; `operator[]` is unchecked, so an
index at or beyond the length is a fault. -/
def setByte (row : List Nat) (i : Nat) (v : Nat) : Except Fault (List Nat) :=
  if i < row.length then .ok (row.set i v) else .error .rowIndexOutOfRange

/-! ## Collaborators -/

/-- The module grid `qrcodegen::QrCode`, seen through `getSize` and `getModule`. -/
structure QrCode where
  size : Int
  modules : Int → Int → Bool

/-- Side length `qr.getSize()`. -/
def QrCode.getSize (qr : QrCode) : Int := qr.size

/-- Query `qr.getModule(x, y)`. A query outside `[0, size)` is recorded as a
fault, which makes "the grid is only queried inside its bounds" observable. -/
def QrCode.getModule (qr : QrCode) (x y : Int) : Except Fault Bool :=
  if 0 ≤ x ∧ x < qr.size ∧ 0 ≤ y ∧ y < qr.size then .ok (qr.modules x y)
  else .error .moduleOutOfRange

/-- The streaming encoder `TinyPngOut` with internal state `σ`: the constructor
takes the declared width and height, `write` takes the row bytes and the number
of pixels; either may throw a `std::exception` (the error carries its text). -/
structure TinyPngOut (σ : Type) where
  create : Nat → Nat → Except String σ
  write : σ → List Nat → Nat → Except String σ

/-- One call of `png.write`: the bytes of the row buffer at the call, the pixel
count passed, and whether the call returned normally. -/
structure WriteCall where
  row : List Nat
  count : Nat
  accepted : Bool
  deriving DecidableEq

/-- What a run of `savePng` did: the value returned, the arguments of the
`TinyPngOut` constructor call (if it was reached) with whether it returned
normally, and the `write` calls in order. -/
structure Outcome where
  ret : Int
  created : Option (Nat × Nat × Bool)
  writes : List WriteCall
  deriving DecidableEq

/-! ## `savePng` -/

/-- The constant `border` of `savePng`. -/
def border : Int := 4

/-- The `int` value `pixels = (size + border * 2) * scale`. -/
def pixelCount (size scale : Int) : Int :=
  wrapInt (wrapInt (size + wrapInt (border * 2)) * scale)

/-- Body of the inner loop of `savePng` for the pixel `(px, py)`: map the pixel
to module coordinates, look the module up when the coordinates are inside the
grid, and store the value into the three channels at offset `px * 3`. -/
def storePixel (qr : QrCode) (scale size : Int) (py px : Int) (row : List Nat) :
    Except Fault (List Nat) := do
  let qx ← intDiv px scale
  let mx := wrapInt (qx - border)
  let qy ← intDiv py scale
  let my := wrapInt (qy - border)
  let dark ← if 0 ≤ mx ∧ mx < size ∧ 0 ≤ my ∧ my < size then qr.getModule mx my else pure false
  let v : Nat := if dark then 0 else 255
  let off := sizeMul (toSizeT px) 3
  let row ← setByte row (sizeAdd off 0) v
  let row ← setByte row (sizeAdd off 1) v
  setByte row (sizeAdd off 2) v

/-- The inner loop `for (int px = 0; px < pixels; ++px)` for the row `py`. -/
def fillRow (qr : QrCode) (scale size pixels : Int) (py : Int) (row : List Nat) :
    Except Fault (List Nat) :=
  (List.range pixels.toNat).foldlM (fun r (px : Nat) => storePixel qr scale size py (px : Int) r) row

/-- The outer loop `for (int py = 0; py < pixels; ++py)` over the rows still to
do: fill the buffer, hand it to `png.write`; an exception of the encoder leaves
the loop with return value 1, the end of the loop gives 0. -/
def rowLoop {σ : Type} (qr : QrCode) (scale size pixels : Int) (png : TinyPngOut σ) :
    List Nat → σ → List Nat → List WriteCall → Except Fault (Int × List WriteCall)
  | [], _, _, done => .ok (0, done)
  | py :: rest, st, row, done =>
    match fillRow qr scale size pixels (py : Int) row with
    | .error f => .error f
    | .ok filled =>
      match png.write st filled (toSizeT pixels) with
      | .error _ => .ok (1, done ++ [⟨filled, toSizeT pixels, false⟩])
      | .ok st2 => rowLoop qr scale size pixels png rest st2 filled
          (done ++ [⟨filled, toSizeT pixels, true⟩])

/-- The function `savePng(qr, scale, filename)`. `opens` tells whether the
output file can be opened; `png` is the encoder the rows go to. The steps are
those of the source: compute `pixels`, open the file (return 1 on failure),
construct the encoder, allocate the row buffer of `pixels * 3` bytes, run the
row loop; any exception inside the `try` block gives the return value 1. -/
def savePng {σ : Type} (qr : QrCode) (scale : Int) (filename : String)
    (opens : String → Bool) (png : TinyPngOut σ) : Except Fault Outcome :=
  let size := qr.getSize
  let pixels := pixelCount size scale
  if opens filename = false then .ok ⟨1, none, []⟩
  else
    match png.create (toUint32 pixels) (toUint32 pixels) with
    | .error _ => .ok ⟨1, some (toUint32 pixels, toUint32 pixels, false), []⟩
    | .ok st =>
      let len := sizeMul (toSizeT pixels) 3
      if VECTOR_MAX_SIZE < len then
        .ok ⟨1, some (toUint32 pixels, toUint32 pixels, true), []⟩
      else
        match rowLoop qr scale size pixels png (List.range pixels.toNat) st
            (List.replicate len 0) [] with
        | .error f => .error f
        | .ok (ret, calls) => .ok ⟨ret, some (toUint32 pixels, toUint32 pixels, true), calls⟩

/-! ## `main` -/

/-- C `isspace` in the "C" locale: space, and the control characters 9 to 13. -/
def isSpace (c : Char) : Bool := c.toNat = 32 || (9 ≤ c.toNat && c.toNat ≤ 13)

/-- C `isdigit`: the characters `0` to `9`. -/
def isDigit (c : Char) : Bool := 48 ≤ c.toNat && c.toNat ≤ 57

/-- Value of the longest prefix of decimal digits of `cs`, read left to right
onto the accumulator. -/
def leadingDigits : List Char → Nat → Nat
  | [], acc => acc
  | c :: cs, acc =>
    if isDigit c = true then leadingDigits cs (acc * 10 + (c.toNat - 48)) else acc

/-- Saturation of `strtol` to the range of `long` (64 bits). -/
def clampLong (x : Int) : Int :=
  if x < -9223372036854775808 then -9223372036854775808
  else if 9223372036854775807 < x then 9223372036854775807 else x

/-- The library function `std::atoi`: skip leading white space, read an optional
sign and the longest run of decimal digits that follows; the value is 0 when
there is no digit. A value outside `int` is undefined in C; the common
implementation `(int) strtol(s, NULL, 10)` is followed here. -/
def atoi (s : String) : Int :=
  match s.toList.dropWhile isSpace with
  | '-' :: ds => wrapInt (clampLong (-(leadingDigits ds 0 : Int)))
  | '+' :: ds => wrapInt (clampLong (leadingDigits ds 0 : Int))
  | ds => wrapInt (clampLong (leadingDigits ds 0 : Int))

/-- The option loop of `main` (`for (int i = 2; i < argc; ++i)`) over the
arguments still to read, with the current `outFile` and `scale`. The result is
`none` when the loop leaves through `printUsage` and `return 1`. -/
def parseOptions : List String → String → Int → Option (String × Int)
  | [], outFile, scale => some (outFile, scale)
  | [_], _, _ => none
  | a :: v :: rest, outFile, scale =>
    if a = "-o" ∨ a = "--output" then parseOptions rest v scale
    else if a = "-s" ∨ a = "--scale" then
      parseOptions rest outFile (if atoi v ≤ 0 then 10 else atoi v)
    else none

/-- What a run of `main` did: the exit code, whether `printUsage` was called,
and the call of `savePng` (scale, file name, what the call did) if one was made. -/
structure MainOutcome where
  exitCode : Int
  usage : Bool
  saved : Option (Int × String × Outcome)
  deriving DecidableEq

/-- The function `main(argc, argv)` with `argv` as the list of its `argc`
strings. `encodeText` is `QrCode::encodeText(text, Ecc::LOW)`, which may throw. -/
def main {σ : Type} (argv : List String) (encodeText : String → Except String QrCode)
    (opens : String → Bool) (png : TinyPngOut σ) : Except Fault MainOutcome :=
  match argv with
  | [] => .ok ⟨1, true, none⟩
  | [_] => .ok ⟨1, true, none⟩
  | _ :: text :: options =>
    if text = "-h" ∨ text = "--help" then .ok ⟨0, true, none⟩
    else
      match parseOptions options "qrcode.png" 10 with
      | none => .ok ⟨1, true, none⟩
      | some (outFile, scale) =>
        match encodeText text with
        | .error _ => .ok ⟨1, false, none⟩
        | .ok qr =>
          match savePng qr scale outFile opens png with
          | .error f => .error f
          | .ok o =>
            if o.ret ≠ 0 then .ok ⟨1, false, some (scale, outFile, o)⟩
            else .ok ⟨0, false, some (scale, outFile, o)⟩

/-! ## The reference of the specification -/

/-- The spec's `pixelAt` (section 4.1, border 4):
`mx = floor(px / scale) - border`, `my = floor(py / scale) - border`; white
(255) when `mx` or `my` is outside `[0, size)`, else black (0) for a dark
module and white (255) for a light one. -/
def pixelAt (qr : QrCode) (scale : Int) (px py : Int) : Nat :=
  let mx := Int.fdiv px scale - 4
  let my := Int.fdiv py scale - 4
  if mx < 0 ∨ qr.size ≤ mx ∨ my < 0 ∨ qr.size ≤ my then 255
  else if qr.modules mx my = true then 0 else 255


/-- A non-empty run of decimal digits. -/
def allDigits (cs : List Char) : Bool := !cs.isEmpty && cs.all isDigit

/-- Value of a run of decimal digits read as a decimal numeral. -/
def digitsValue (ds : List Char) : Nat :=
  ds.foldl (fun acc c => acc * 10 + (c.toNat - 48)) 0

/-- The integer a command-line value denotes when it is a well-formed decimal
integer (an optional sign followed by one or more decimal digits and nothing
else); `none` for any other string. -/
def integerValue (s : String) : Option Int :=
  match s.toList with
  | '-' :: ds => if allDigits ds = true then some (-(digitsValue ds : Int)) else none
  | '+' :: ds => if allDigits ds = true then some (digitsValue ds : Int) else none
  | ds => if allDigits ds = true then some (digitsValue ds : Int) else none

/-- The byte the body of the inner loop stores for the pixel `(px, py)`: the
value `v` of the source, read off `storePixel`. -/
def pixelValue (qr : QrCode) (scale size : Int) (px py : Int) : Nat :=
  let mx := wrapInt (wrapInt (Int.tdiv px scale) - border)
  let my := wrapInt (wrapInt (Int.tdiv py scale) - border)
  if (0 ≤ mx ∧ mx < size ∧ 0 ≤ my ∧ my < size) ∧ qr.modules mx my = true then 0 else 255

/-- The row buffer after the inner loop has run for the row `py`: byte `i`
belongs to the pixel `i / 3`. -/
def codeRow (qr : QrCode) (scale size pixels : Int) (py : Nat) : List Nat :=
  (List.range (3 * pixels.toNat)).map (fun i => pixelValue qr scale size ((i / 3 : Nat) : Int) (py : Int))

/-- Hand the given rows to `png.write` one after the other, stopping at the
first call that throws. -/
def feedRows {σ : Type} (png : TinyPngOut σ) (count : Nat) :
    List (List Nat) → σ → List WriteCall → Int × List WriteCall
  | [], _, done => (0, done)
  | r :: rest, st, done =>
    match png.write st r count with
    | .error _ => (1, done ++ [⟨r, count, false⟩])
    | .ok st2 => feedRows png count rest st2 (done ++ [⟨r, count, true⟩])

/-- The outcome of `savePng` in closed form. -/
def expectedOutcome {σ : Type} (qr : QrCode) (scale : Int) (filename : String)
    (opens : String → Bool) (png : TinyPngOut σ) : Outcome :=
  let pixels := pixelCount qr.getSize scale
  if opens filename = false then ⟨1, none, []⟩
  else
    match png.create (toUint32 pixels) (toUint32 pixels) with
    | .error _ => ⟨1, some (toUint32 pixels, toUint32 pixels, false), []⟩
    | .ok st =>
      if pixels < 0 then ⟨1, some (toUint32 pixels, toUint32 pixels, true), []⟩
      else
        let fed := feedRows png (toSizeT pixels)
          ((List.range pixels.toNat).map (codeRow qr scale qr.getSize pixels)) st []
        ⟨fed.1, some (toUint32 pixels, toUint32 pixels, true), fed.2⟩

/-- The outcome of `main` in closed form. -/
def expectedMain {σ : Type} (argv : List String) (encodeText : String → Except String QrCode)
    (opens : String → Bool) (png : TinyPngOut σ) : MainOutcome :=
  match argv with
  | [] => ⟨1, true, none⟩
  | [_] => ⟨1, true, none⟩
  | _ :: text :: options =>
    if text = "-h" ∨ text = "--help" then ⟨0, true, none⟩
    else
      match parseOptions options "qrcode.png" 10 with
      | none => ⟨1, true, none⟩
      | some (outFile, scale) =>
        match encodeText text with
        | .error _ => ⟨1, false, none⟩
        | .ok qr =>
          if (expectedOutcome qr scale outFile opens png).ret ≠ 0 then
            ⟨1, false, some (scale, outFile, expectedOutcome qr scale outFile opens png)⟩
          else ⟨0, false, some (scale, outFile, expectedOutcome qr scale outFile opens png)⟩

/-- The flags of the output option. -/
def isOutputFlag (a : String) : Prop := a = "-o" ∨ a = "--output"

/-- The flags of the scale option. -/
def isScaleFlag (a : String) : Prop := a = "-s" ∨ a = "--scale"

/-- The arguments spelled by a sequence of options, each a flag with its value. -/
def optionArgs : List (String × String) → List String
  | [] => []
  | (flag, value) :: rest => flag :: value :: optionArgs rest

/-- The `outFile` and `scale` the option loop holds after reading a sequence of
options, each a flag with its value. -/
def applyOptions : List (String × String) → String → Int → String × Int
  | [], outFile, scale => (outFile, scale)
  | (flag, value) :: rest, outFile, scale =>
    if flag = "-o" ∨ flag = "--output" then applyOptions rest value scale
    else applyOptions rest outFile (if atoi value ≤ 0 then 10 else atoi value)

/-- An encoder whose constructor and `write` never throw. -/
def TinyPngOut.NeverFails {σ : Type} (png : TinyPngOut σ) : Prop :=
  (∀ w h, ∃ st, png.create w h = .ok st) ∧ (∀ st row n, ∃ st2, png.write st row n = .ok st2)

/-! ## Concrete grids and encoders -/

/-- An encoder that accepts everything. -/
def acceptAll : TinyPngOut Unit where
  create := fun _ _ => .ok ()
  write := fun _ _ _ => .ok ()

/-- An encoder whose constructor throws. -/
def rejectAll : TinyPngOut Unit where
  create := fun _ _ => .error "Zero width or height"
  write := fun _ _ _ => .ok ()

/-- The 1x1 grid whose only module is dark. -/
def unitDark : QrCode where
  size := 1
  modules := fun _ _ => true

/-- A grid of side 21 (the smallest QR symbol) with every module light. -/
def grid21 : QrCode where
  size := 21
  modules := fun _ _ => false

/-! ## Machine arithmetic inside its range -/

theorem wrapInt_of_range {x : Int} (h1 : -2147483648 ≤ x) (h2 : x ≤ 2147483647) :
    wrapInt x = x := by
  unfold wrapInt; omega

theorem wrapInt_range (x : Int) : -2147483648 ≤ wrapInt x ∧ wrapInt x ≤ 2147483647 := by
  unfold wrapInt; omega

theorem pixelCount_range (size scale : Int) :
    -2147483648 ≤ pixelCount size scale ∧ pixelCount size scale ≤ 2147483647 :=
  wrapInt_range _

theorem pixelCount_zero_scale (size : Int) : pixelCount size 0 = 0 := by
  unfold pixelCount; simp [wrapInt]

theorem toSizeT_nat {n : Nat} (h : (n : Int) ≤ 2147483647) : toSizeT (n : Int) = n := by
  unfold toSizeT SIZE_MOD
  have : ((n : Int) % ((18446744073709551616 : Nat) : Int)) = n := by
    apply Int.emod_eq_of_lt <;> omega
  rw [this]; simp

theorem pixelOffset {n : Nat} (h : (n : Int) ≤ 2147483647) (k : Nat) (hk : k ≤ 2) :
    sizeAdd (sizeMul (toSizeT (n : Int)) 3) k = 3 * n + k := by
  rw [toSizeT_nat h]
  unfold sizeAdd sizeMul SIZE_MOD
  omega

/-! ## The inner loop -/

theorem storePixel_ok (qr : QrCode) (scale : Int) (py : Int) (px : Nat) (row : List Nat)
    (hscale : scale ≠ 0) (hpx : (px : Int) ≤ 2147483647) (hlen : 3 * px + 2 < row.length) :
    storePixel qr scale qr.getSize py (px : Int) row =
      .ok (((row.set (3 * px) (pixelValue qr scale qr.getSize px py)).set (3 * px + 1)
        (pixelValue qr scale qr.getSize px py)).set (3 * px + 2)
        (pixelValue qr scale qr.getSize px py)) := by
  have h0 := pixelOffset hpx 0 (by omega)
  have h1 := pixelOffset hpx 1 (by omega)
  have h2 := pixelOffset hpx 2 (by omega)
  simp only [Nat.add_zero] at h0
  unfold storePixel intDiv
  simp only [hscale, if_false, h0, h1, h2]
  by_cases hg : 0 ≤ wrapInt (wrapInt (Int.tdiv (px : Int) scale) - border) ∧
      wrapInt (wrapInt (Int.tdiv (px : Int) scale) - border) < qr.getSize ∧
      0 ≤ wrapInt (wrapInt (Int.tdiv py scale) - border) ∧
      wrapInt (wrapInt (Int.tdiv py scale) - border) < qr.getSize
  · have hg2 := hg
    unfold QrCode.getSize at hg2
    simp [QrCode.getModule, pixelValue, hg, hg2, setByte, hlen, bind, Except.bind, pure, Except.pure]
    have : 3 * px < row.length := by omega
    have : 3 * px + 1 < row.length := by omega
    simp [*]
  · simp [pixelValue, hg, setByte, hlen, bind, Except.bind, pure, Except.pure]
    have : 3 * px < row.length := by omega
    have : 3 * px + 1 < row.length := by omega
    simp [*]

theorem fillRow_upTo (qr : QrCode) (scale : Int) (py : Int) (row : List Nat) (n : Nat)
    (hscale : scale ≠ 0) (hn : (n : Int) ≤ 2147483647) (hlen : row.length = 3 * n) (k : Nat)
    (hk : k ≤ n) :
    ∃ r, (List.range k).foldlM (fun r (px : Nat) => storePixel qr scale qr.getSize py (px : Int) r) row
        = .ok r ∧ r.length = row.length ∧
      ∀ i, r[i]? = if i < 3 * k then some (pixelValue qr scale qr.getSize ((i / 3 : Nat) : Int) py)
        else row[i]? := by
  induction k with
  | zero => exact ⟨row, by simp [pure, Except.pure], rfl, by simp⟩
  | succ k ih =>
    obtain ⟨r, hr, hrl, hri⟩ := ih (by omega)
    have hkI : (k : Int) ≤ 2147483647 := by omega
    have hstore := storePixel_ok qr scale py k r hscale hkI (by omega)
    refine ⟨((r.set (3 * k) (pixelValue qr scale qr.getSize k py)).set (3 * k + 1)
        (pixelValue qr scale qr.getSize k py)).set (3 * k + 2)
        (pixelValue qr scale qr.getSize k py), ?_, ?_, ?_⟩
    · rw [List.range_succ, List.foldlM_append, hr]
      simp only [bind, Except.bind, List.foldlM, pure, Except.pure]
      rw [hstore]
    · simp [hrl]
    · intro i
      simp only [List.getElem?_set, List.length_set, hri]
      have e0 : (3 * k) / 3 = k := by omega
      have e1 : (3 * k + 1) / 3 = k := by omega
      have e2 : (3 * k + 2) / 3 = k := by omega
      have hl0 : 3 * k < r.length := by omega
      have hl1 : 3 * k + 1 < r.length := by omega
      have hl2 : 3 * k + 2 < r.length := by omega
      by_cases c2 : 3 * k + 2 = i
      · subst c2
        rw [if_pos rfl, if_pos hl2, if_pos (by omega), e2]
      · by_cases c1 : 3 * k + 1 = i
        · subst c1
          rw [if_neg (by omega), if_pos rfl, if_pos hl1, if_pos (by omega), e1]
        · by_cases c0 : 3 * k = i
          · subst c0
            rw [if_neg (by omega), if_neg (by omega), if_pos rfl, if_pos hl0, if_pos (by omega), e0]
          · rw [if_neg c2, if_neg c1, if_neg c0]
            by_cases hi : i < 3 * k
            · rw [if_pos hi, if_pos (by omega)]
            · rw [if_neg hi, if_neg (by omega)]

theorem codeRow_length (qr : QrCode) (scale size pixels : Int) (py : Nat) :
    (codeRow qr scale size pixels py).length = 3 * pixels.toNat := by
  simp [codeRow]

theorem fillRow_ok (qr : QrCode) (scale pixels : Int) (py : Nat) (row : List Nat)
    (hscale : scale ≠ 0) (hp : pixels ≤ 2147483647) (hlen : row.length = 3 * pixels.toNat) :
    fillRow qr scale qr.getSize pixels (py : Int) row
      = .ok (codeRow qr scale qr.getSize pixels py) := by
  have hn : ((pixels.toNat : Nat) : Int) ≤ 2147483647 := by omega
  obtain ⟨r, hr, hrl, hri⟩ :=
    fillRow_upTo qr scale (py : Int) row pixels.toNat hscale hn hlen pixels.toNat (le_refl _)
  unfold fillRow
  rw [hr]
  congr 1
  apply List.ext_getElem?
  intro i
  rw [hri]
  by_cases hi : i < 3 * pixels.toNat
  · simp [codeRow, hi, List.getElem?_range]
  · have h1 : row.length ≤ i := by omega
    have h2 : (codeRow qr scale qr.getSize pixels py).length ≤ i := by
      rw [codeRow_length]; omega
    rw [if_neg hi, List.getElem?_eq_none h1, List.getElem?_eq_none h2]

/-! ## The outer loop and `savePng` in closed form -/

theorem rowLoop_eq {σ : Type} (qr : QrCode) (scale pixels : Int) (png : TinyPngOut σ)
    (hscale : scale ≠ 0) (hp : pixels ≤ 2147483647) (pys : List Nat) :
    ∀ (st : σ) (row : List Nat) (done : List WriteCall), row.length = 3 * pixels.toNat →
      rowLoop qr scale qr.getSize pixels png pys st row done
        = .ok (feedRows png (toSizeT pixels)
            (pys.map (codeRow qr scale qr.getSize pixels)) st done) := by
  induction pys with
  | nil => intro st row done _; rfl
  | cons py rest ih =>
    intro st row done hlen
    simp only [rowLoop, List.map_cons, feedRows, fillRow_ok qr scale pixels py row hscale hp hlen]
    cases hw : png.write st (codeRow qr scale qr.getSize pixels py) (toSizeT pixels) with
    | error e => rfl
    | ok st2 => exact ih st2 _ _ (codeRow_length _ _ _ _ _)

theorem rowBytes_nonneg {p : Int} (h0 : 0 ≤ p) (h1 : p ≤ 2147483647) :
    sizeMul (toSizeT p) 3 = 3 * p.toNat := by
  obtain ⟨n, rfl⟩ := Int.eq_ofNat_of_zero_le h0
  rw [toSizeT_nat h1, Int.toNat_ofNat]
  unfold sizeMul SIZE_MOD; omega

theorem rowBytes_neg {p : Int} (h0 : p < 0) (h1 : -2147483648 ≤ p) :
    VECTOR_MAX_SIZE < sizeMul (toSizeT p) 3 := by
  obtain ⟨q, hq⟩ : ∃ q : Nat, (q : Int) = 18446744073709551616 + p :=
    ⟨(18446744073709551616 + p).toNat, by omega⟩
  have : toSizeT p = q := by
    unfold toSizeT SIZE_MOD
    have : p % ((18446744073709551616 : Nat) : Int) = (q : Int) := by
      rw [hq]
      have h2 : (p + 18446744073709551616) % ((18446744073709551616 : Nat) : Int)
          = p + 18446744073709551616 := by
        apply Int.emod_eq_of_lt <;> omega
      omega
    rw [this, Int.toNat_ofNat]
  rw [this]; unfold sizeMul SIZE_MOD VECTOR_MAX_SIZE
  have hq3 : q * 3 = (q * 3 - 36893488147419103232) + 18446744073709551616 * 2 := by omega
  rw [hq3, Nat.add_mul_mod_self_left, Nat.mod_eq_of_lt (by omega)]
  omega

theorem savePng_eq {σ : Type} (qr : QrCode) (scale : Int) (filename : String)
    (opens : String → Bool) (png : TinyPngOut σ) :
    savePng qr scale filename opens png = .ok (expectedOutcome qr scale filename opens png) := by
  have hr := pixelCount_range qr.getSize scale
  unfold savePng expectedOutcome
  by_cases ho : opens filename = false
  · simp [ho]
  · simp only [ho, if_false]
    cases hc : png.create (toUint32 (pixelCount qr.getSize scale))
        (toUint32 (pixelCount qr.getSize scale)) with
    | error e => rfl
    | ok st =>
      simp only []
      by_cases hneg : pixelCount qr.getSize scale < 0
      · simp [hneg, rowBytes_neg hneg hr.1]
      · have h0 : 0 ≤ pixelCount qr.getSize scale := by omega
        have hlen := rowBytes_nonneg h0 hr.2
        have hmax : ¬ VECTOR_MAX_SIZE < sizeMul (toSizeT (pixelCount qr.getSize scale)) 3 := by
          rw [hlen]; unfold VECTOR_MAX_SIZE; omega
        simp only [hmax, hneg, if_false]
        by_cases hs : scale = 0
        · subst hs
          simp [pixelCount_zero_scale, rowLoop, feedRows]
        · rw [rowLoop_eq qr scale _ png hs hr.2 _ st _ [] (by simp [hlen])]
          simp

/-! ## The stored byte is the reference `pixelAt` -/

theorem moduleCoord_eq {p scale : Int} (hscale : 1 ≤ scale) (h0 : 0 ≤ p) (h1 : p ≤ 2147483647) :
    wrapInt (wrapInt (Int.tdiv p scale) - border) = Int.fdiv p scale - 4 := by
  have hs0 : (0 : Int) ≤ scale := by omega
  rw [Int.tdiv_eq_ediv h0 hs0, Int.fdiv_eq_ediv p hs0]
  have hq0 : 0 ≤ p / scale := Int.ediv_nonneg h0 hs0
  have hq1 : p / scale ≤ p := Int.ediv_le_self _ h0
  have e1 : wrapInt (p / scale) = p / scale := wrapInt_of_range (by omega) (by omega)
  have e2 : wrapInt (p / scale - 4) = p / scale - 4 := wrapInt_of_range (by omega) (by omega)
  unfold border
  rw [e1, e2]

theorem pixelValue_eq_pixelAt (qr : QrCode) (scale px py : Int) (hscale : 1 ≤ scale)
    (hx0 : 0 ≤ px) (hx1 : px ≤ 2147483647) (hy0 : 0 ≤ py) (hy1 : py ≤ 2147483647) :
    pixelValue qr scale qr.getSize px py = pixelAt qr scale px py := by
  unfold pixelValue pixelAt QrCode.getSize
  simp only [moduleCoord_eq hscale hx0 hx1, moduleCoord_eq hscale hy0 hy1]
  by_cases h : Int.fdiv px scale - 4 < 0 ∨ qr.size ≤ Int.fdiv px scale - 4 ∨
      Int.fdiv py scale - 4 < 0 ∨ qr.size ≤ Int.fdiv py scale - 4
  · have h2 : ¬ (0 ≤ Int.fdiv px scale - 4 ∧ Int.fdiv px scale - 4 < qr.size ∧
        0 ≤ Int.fdiv py scale - 4 ∧ Int.fdiv py scale - 4 < qr.size) := by omega
    rw [if_neg (fun hh => h2 hh.1), if_pos h]
  · have h2 : 0 ≤ Int.fdiv px scale - 4 ∧ Int.fdiv px scale - 4 < qr.size ∧
        0 ≤ Int.fdiv py scale - 4 ∧ Int.fdiv py scale - 4 < qr.size := by omega
    rw [if_neg h]
    by_cases hm : qr.modules (Int.fdiv px scale - 4) (Int.fdiv py scale - 4) = true
    · rw [if_pos ⟨h2, hm⟩, if_pos hm]
    · rw [if_neg (fun hh => hm hh.2), if_neg hm]

theorem pixelAt_values (qr : QrCode) (scale px py : Int) :
    pixelAt qr scale px py = 0 ∨ pixelAt qr scale px py = 255 := by
  unfold pixelAt
  simp only []
  split
  · right; rfl
  · split
    · left; rfl
    · right; rfl

/-! ## The calls made on the encoder -/

theorem feedRows_shape {σ : Type} (png : TinyPngOut σ) (count : Nat) (rows : List (List Nat)) :
    ∀ (st : σ) (done : List WriteCall), ∃ calls : List WriteCall,
      (feedRows png count rows st done).2 = done ++ calls ∧
      calls.length ≤ rows.length ∧
      (∀ k call, calls[k]? = some call →
        rows[k]? = some call.row ∧ call.count = count ∧
        (call.accepted = false →
          k + 1 = calls.length ∧ (feedRows png count rows st done).1 = 1)) ∧
      ((feedRows png count rows st done).1 = 0 ∧ calls.length = rows.length ∨
        (feedRows png count rows st done).1 = 1 ∧
          ∃ call, calls[calls.length - 1]? = some call ∧ call.accepted = false) := by
  induction rows with
  | nil =>
    intro st done
    exact ⟨[], by simp [feedRows], le_refl _, by simp, Or.inl ⟨rfl, rfl⟩⟩
  | cons r rest ih =>
    intro st done
    cases hw : png.write st r count with
    | error e =>
      refine ⟨[⟨r, count, false⟩], by simp [feedRows, hw], by simp, ?_, ?_⟩
      · intro k call hk
        cases k with
        | zero =>
          simp at hk
          subst hk
          simp [feedRows, hw]
        | succ k => simp at hk
      · right
        simp [feedRows, hw]
    | ok st2 =>
      obtain ⟨calls, h1, h2, h3, h4⟩ := ih st2 (done ++ [⟨r, count, true⟩])
      have hfeed : feedRows png count (r :: rest) st done
          = feedRows png count rest st2 (done ++ [⟨r, count, true⟩]) := by
        simp [feedRows, hw]
      refine ⟨⟨r, count, true⟩ :: calls, ?_, ?_, ?_, ?_⟩
      · rw [hfeed, h1]; simp
      · simp; omega
      · intro k call hk
        cases k with
        | zero =>
          simp at hk
          subst hk
          simp
        | succ k =>
          simp only [List.getElem?_cons_succ] at hk
          obtain ⟨a, b, c⟩ := h3 k call hk
          refine ⟨by simpa using a, b, ?_⟩
          intro hacc
          obtain ⟨c1, c2⟩ := c hacc
          exact ⟨by simp; omega, by rw [hfeed]; exact c2⟩
      · rw [hfeed]
        rcases h4 with ⟨a, b⟩ | ⟨a, call, b, c⟩
        · left; exact ⟨a, by simp [b]⟩
        · right
          refine ⟨a, call, ?_, c⟩
          have hpos : 0 < calls.length := by
            by_contra hcon
            have : calls = [] := by
              apply List.eq_nil_of_length_eq_zero; omega
            subst this
            simp at b
          have : (⟨r, count, true⟩ :: calls : List WriteCall).length - 1
              = (calls.length - 1) + 1 := by simp; omega
          rw [this, List.getElem?_cons_succ]
          exact b

theorem feedRows_neverFails {σ : Type} (png : TinyPngOut σ) (count : Nat)
    (hw : ∀ st row n, ∃ st2, png.write st row n = .ok st2) (rows : List (List Nat)) :
    ∀ (st : σ) (done : List WriteCall),
      feedRows png count rows st done
        = (0, done ++ rows.map (fun r => (⟨r, count, true⟩ : WriteCall))) := by
  induction rows with
  | nil => intro st done; simp [feedRows]
  | cons r rest ih =>
    intro st done
    obtain ⟨st2, h⟩ := hw st r count
    simp [feedRows, h, ih]

/-! ## Shape of every run of `savePng` -/

theorem expectedOutcome_unopened {σ : Type} (qr : QrCode) (scale : Int) (filename : String)
    (opens : String → Bool) (png : TinyPngOut σ) (ho : opens filename = false) :
    expectedOutcome qr scale filename opens png = ⟨1, none, []⟩ := by
  unfold expectedOutcome
  simp [ho]

theorem expectedOutcome_rejected {σ : Type} (qr : QrCode) (scale : Int) (filename : String)
    (opens : String → Bool) (png : TinyPngOut σ) (ho : opens filename = true) (e : String)
    (hc : png.create (toUint32 (pixelCount qr.getSize scale))
      (toUint32 (pixelCount qr.getSize scale)) = .error e) :
    expectedOutcome qr scale filename opens png
      = ⟨1, some (toUint32 (pixelCount qr.getSize scale),
          toUint32 (pixelCount qr.getSize scale), false), []⟩ := by
  unfold expectedOutcome
  simp [ho, hc]

theorem expectedOutcome_tooLarge {σ : Type} (qr : QrCode) (scale : Int) (filename : String)
    (opens : String → Bool) (png : TinyPngOut σ) (ho : opens filename = true) (st : σ)
    (hc : png.create (toUint32 (pixelCount qr.getSize scale))
      (toUint32 (pixelCount qr.getSize scale)) = .ok st)
    (hneg : pixelCount qr.getSize scale < 0) :
    expectedOutcome qr scale filename opens png
      = ⟨1, some (toUint32 (pixelCount qr.getSize scale),
          toUint32 (pixelCount qr.getSize scale), true), []⟩ := by
  unfold expectedOutcome
  simp [ho, hc, hneg]

theorem expectedOutcome_fed {σ : Type} (qr : QrCode) (scale : Int) (filename : String)
    (opens : String → Bool) (png : TinyPngOut σ) (ho : opens filename = true) (st : σ)
    (hc : png.create (toUint32 (pixelCount qr.getSize scale))
      (toUint32 (pixelCount qr.getSize scale)) = .ok st)
    (hneg : ¬ pixelCount qr.getSize scale < 0) :
    expectedOutcome qr scale filename opens png
      = ⟨(feedRows png (toSizeT (pixelCount qr.getSize scale))
            ((List.range (pixelCount qr.getSize scale).toNat).map
              (codeRow qr scale qr.getSize (pixelCount qr.getSize scale))) st []).1,
          some (toUint32 (pixelCount qr.getSize scale),
            toUint32 (pixelCount qr.getSize scale), true),
          (feedRows png (toSizeT (pixelCount qr.getSize scale))
            ((List.range (pixelCount qr.getSize scale).toNat).map
              (codeRow qr scale qr.getSize (pixelCount qr.getSize scale))) st []).2⟩ := by
  unfold expectedOutcome
  simp [ho, hc, hneg]

theorem expectedOutcome_shape {σ : Type} (qr : QrCode) (scale : Int) (filename : String)
    (opens : String → Bool) (png : TinyPngOut σ) :
    (∀ k call, (expectedOutcome qr scale filename opens png).writes[k]? = some call →
      k < (pixelCount qr.getSize scale).toNat ∧
      call.row = codeRow qr scale qr.getSize (pixelCount qr.getSize scale) k ∧
      call.count = toSizeT (pixelCount qr.getSize scale) ∧
      (call.accepted = false →
        k + 1 = (expectedOutcome qr scale filename opens png).writes.length ∧
        (expectedOutcome qr scale filename opens png).ret = 1)) ∧
    ((expectedOutcome qr scale filename opens png).ret = 0 ∨
      (expectedOutcome qr scale filename opens png).ret = 1) ∧
    ((expectedOutcome qr scale filename opens png).ret = 0 →
      opens filename = true ∧
      (expectedOutcome qr scale filename opens png).created
        = some (toUint32 (pixelCount qr.getSize scale), toUint32 (pixelCount qr.getSize scale), true) ∧
      0 ≤ pixelCount qr.getSize scale ∧
      (expectedOutcome qr scale filename opens png).writes.length
        = (pixelCount qr.getSize scale).toNat) := by
  by_cases ho : opens filename = false
  · rw [expectedOutcome_unopened qr scale filename opens png ho]; simp
  · have ho2 : opens filename = true := by simpa using ho
    cases hc : png.create (toUint32 (pixelCount qr.getSize scale))
        (toUint32 (pixelCount qr.getSize scale)) with
    | error e => rw [expectedOutcome_rejected qr scale filename opens png ho2 e hc]; simp
    | ok st =>
      by_cases hneg : pixelCount qr.getSize scale < 0
      · rw [expectedOutcome_tooLarge qr scale filename opens png ho2 st hc hneg]; simp
      · rw [expectedOutcome_fed qr scale filename opens png ho2 st hc hneg]
        obtain ⟨calls, h1, h2, h3, h4⟩ := feedRows_shape png
          (toSizeT (pixelCount qr.getSize scale))
          ((List.range (pixelCount qr.getSize scale).toNat).map
            (codeRow qr scale qr.getSize (pixelCount qr.getSize scale))) st []
        rw [List.nil_append] at h1
        simp only [List.length_map, List.length_range] at h2 h4
        simp only [h1]
        refine ⟨?_, ?_, ?_⟩
        · intro k call hk
          obtain ⟨a, b, c⟩ := h3 k call hk
          have hklt : k < calls.length := by
            by_contra hcon
            rw [List.getElem?_eq_none (by omega)] at hk
            exact absurd hk (by simp)
          have hk2 : k < (pixelCount qr.getSize scale).toNat := by omega
          refine ⟨hk2, ?_, b, c⟩
          rw [List.getElem?_map, List.getElem?_range hk2] at a
          simp at a
          exact a.symm
        · rcases h4 with ⟨a, _⟩ | ⟨a, _⟩
          · exact Or.inl a
          · exact Or.inr a
        · intro hret
          rcases h4 with ⟨_, b⟩ | ⟨a, _⟩
          · exact ⟨ho2, trivial, by omega, b⟩
          · rw [hret] at a; exact absurd a (by decide)

theorem expectedOutcome_neverFails {σ : Type} (qr : QrCode) (scale : Int) (filename : String)
    (opens : String → Bool) (png : TinyPngOut σ) (ho : opens filename = true)
    (hpng : png.NeverFails) (h0 : 0 ≤ pixelCount qr.getSize scale) :
    expectedOutcome qr scale filename opens png =
      ⟨0, some (toUint32 (pixelCount qr.getSize scale), toUint32 (pixelCount qr.getSize scale), true),
        (List.range (pixelCount qr.getSize scale).toNat).map (fun k =>
          (⟨codeRow qr scale qr.getSize (pixelCount qr.getSize scale) k,
            toSizeT (pixelCount qr.getSize scale), true⟩ : WriteCall))⟩ := by
  obtain ⟨st, hst⟩ := hpng.1 (toUint32 (pixelCount qr.getSize scale))
    (toUint32 (pixelCount qr.getSize scale))
  have hneg : ¬ pixelCount qr.getSize scale < 0 := by omega
  rw [expectedOutcome_fed qr scale filename opens png ho st hst hneg,
    feedRows_neverFails png _ hpng.2]
  simp only [List.nil_append, List.map_map, Function.comp_def]

theorem codeRow_byte (qr : QrCode) (scale size pixels : Int) (py px j : Nat)
    (hpx : px < pixels.toNat) (hj : j ≤ 2) :
    (codeRow qr scale size pixels py)[3 * px + j]?
      = some (pixelValue qr scale size (px : Int) (py : Int)) := by
  unfold codeRow
  have hlt : 3 * px + j < 3 * pixels.toNat := by omega
  have hdiv : (3 * px + j) / 3 = px := by omega
  rw [List.getElem?_map, List.getElem?_range hlt]
  simp only [Option.map, hdiv]

theorem pixelValue_values (qr : QrCode) (scale size px py : Int) :
    pixelValue qr scale size px py = 0 ∨ pixelValue qr scale size px py = 255 := by
  unfold pixelValue
  simp only []
  split
  · left; rfl
  · right; rfl

theorem codeRow_values (qr : QrCode) (scale size pixels : Int) (py : Nat) :
    ∀ b ∈ codeRow qr scale size pixels py, b = 0 ∨ b = 255 := by
  intro b hb
  unfold codeRow at hb
  rw [List.mem_map] at hb
  obtain ⟨i, _, rfl⟩ := hb
  exact pixelValue_values _ _ _ _ _

/-! ## Geometry -/

theorem pixelCount_eq {size scale : Int} (hsize : 1 ≤ size) (hscale : 1 ≤ scale)
    (hfit : (size + 8) * scale ≤ INT_MAX) : pixelCount size scale = (size + 8) * scale := by
  unfold INT_MAX at hfit
  have h1 : size + 8 ≤ (size + 8) * scale := by nlinarith
  have h2 : 0 < (size + 8) * scale := by nlinarith
  unfold pixelCount border
  have e0 : wrapInt (4 * 2) = 8 := by decide
  rw [e0, wrapInt_of_range (x := size + 8) (by omega) (by omega),
    wrapInt_of_range (by omega) (by omega)]

theorem pixelCount_le {size scale : Int} (hsize : 1 ≤ size) (hscale : 1 ≤ scale) :
    pixelCount size scale ≤ (size + 8) * scale := by
  by_cases hfit : (size + 8) * scale ≤ INT_MAX
  · exact le_of_eq (pixelCount_eq hsize hscale hfit)
  · have := (pixelCount_range size scale).2
    unfold INT_MAX at hfit
    omega

theorem wrapInt_emod (x : Int) : wrapInt x % 4294967296 = x % 4294967296 := by
  unfold wrapInt; omega

theorem pixelCount_emod (size scale : Int) :
    pixelCount size scale % 4294967296 = ((size + 8) * scale) % 4294967296 := by
  unfold pixelCount border
  have e0 : wrapInt (4 * 2) = 8 := by decide
  rw [e0, wrapInt_emod, Int.mul_emod, wrapInt_emod, ← Int.mul_emod]

theorem toUint32_pixelCount (size scale : Int) :
    ((toUint32 (pixelCount size scale) : Nat) : Int) = ((size + 8) * scale) % 4294967296 := by
  unfold toUint32
  rw [pixelCount_emod]
  have := Int.emod_nonneg ((size + 8) * scale) (by decide : (4294967296 : Int) ≠ 0)
  omega

theorem div_of_block {p scale m : Int} (hscale : 1 ≤ scale) (h0 : m * scale ≤ p)
    (h1 : p < (m + 1) * scale) : Int.fdiv p scale = m := by
  have hs : 0 < scale := by omega
  rw [Int.fdiv_eq_ediv p (by omega)]
  have a : m ≤ p / scale := (Int.le_ediv_iff_mul_le hs).2 h0
  have b : p / scale < m + 1 := (Int.ediv_lt_iff_lt_mul hs).2 h1
  omega

/-! ## `main` in closed form -/

theorem main_eq {σ : Type} (argv : List String) (encodeText : String → Except String QrCode)
    (opens : String → Bool) (png : TinyPngOut σ) :
    main argv encodeText opens png = .ok (expectedMain argv encodeText opens png) := by
  unfold main expectedMain
  split
  · rfl
  · rfl
  · rename_i text options
    by_cases hh : text = "-h" ∨ text = "--help"
    · simp only [hh, if_true]
    · simp only [hh, if_false]
      cases hp : parseOptions options "qrcode.png" 10 with
      | none => rfl
      | some r =>
        obtain ⟨outFile, scale⟩ := r
        simp only []
        cases he : encodeText text with
        | error e => rfl
        | ok qr =>
          simp only [savePng_eq]
          by_cases hret : (expectedOutcome qr scale outFile opens png).ret ≠ 0
          · rw [if_pos hret, if_pos hret]
          · rw [if_neg hret, if_neg hret]

theorem parseOptions_scale_pos (args : List String) (outFile : String) (scale : Int) :
    1 ≤ scale → ∀ f sc, parseOptions args outFile scale = some (f, sc) → 1 ≤ sc := by
  induction args, outFile, scale using parseOptions.induct with
  | case1 outFile scale =>
    intro h f sc hp
    simp [parseOptions] at hp
    omega
  | case2 a outFile scale =>
    intro h f sc hp
    simp [parseOptions] at hp
  | case3 a v rest outFile scale ho ih =>
    intro h f sc hp
    rw [parseOptions, if_pos ho] at hp
    exact ih h f sc hp
  | case4 a v rest outFile scale ho hs ih =>
    intro h f sc hp
    rw [parseOptions, if_neg ho, if_pos hs] at hp
    refine ih ?_ f sc hp
    split <;> omega
  | case5 a v rest outFile scale ho hs =>
    intro h f sc hp
    rw [parseOptions, if_neg ho, if_neg hs] at hp
    exact absurd hp (by simp)

theorem parseOptions_optionArgs (pairs : List (String × String)) :
    ∀ (rest : List String) (outFile : String) (scale : Int),
      (∀ p ∈ pairs, isOutputFlag p.1 ∨ isScaleFlag p.1) →
      parseOptions (optionArgs pairs ++ rest) outFile scale
        = parseOptions rest (applyOptions pairs outFile scale).1
            (applyOptions pairs outFile scale).2 := by
  induction pairs with
  | nil => intro rest outFile scale _; rfl
  | cons p pairs ih =>
    intro rest outFile scale hall
    obtain ⟨flag, value⟩ := p
    have hflag := hall (flag, value) (List.mem_cons_self _ _)
    have hrest : ∀ q ∈ pairs, isOutputFlag q.1 ∨ isScaleFlag q.1 :=
      fun q hq => hall q (List.mem_cons_of_mem _ hq)
    simp only [optionArgs, List.cons_append, parseOptions, applyOptions]
    by_cases ho : flag = "-o" ∨ flag = "--output"
    · rw [if_pos ho, if_pos ho]; exact ih rest _ _ hrest
    · have hs : flag = "-s" ∨ flag = "--scale" := by
        rcases hflag with h | h
        · exact absurd h ho
        · exact h
      rw [if_neg ho, if_pos hs, if_neg ho]; exact ih rest _ _ hrest

theorem applyOptions_output (pairs : List (String × String)) :
    ∀ (outFile : String) (scale : Int), (∀ p ∈ pairs, isOutputFlag p.1) →
      (applyOptions pairs outFile scale).2 = scale := by
  induction pairs with
  | nil => intro outFile scale _; rfl
  | cons p pairs ih =>
    intro outFile scale hall
    obtain ⟨flag, value⟩ := p
    have ho : flag = "-o" ∨ flag = "--output" := hall (flag, value) (List.mem_cons_self _ _)
    simp only [applyOptions, if_pos ho]
    exact ih _ _ (fun q hq => hall q (List.mem_cons_of_mem _ hq))

theorem parseOptions_scale_step (flag v : String) (rest : List String) (outFile : String)
    (scale : Int) (hflag : isScaleFlag flag) :
    parseOptions (flag :: v :: rest) outFile scale
      = parseOptions rest outFile (if atoi v ≤ 0 then 10 else atoi v) := by
  have ho : ¬ (flag = "-o" ∨ flag = "--output") := by
    rcases hflag with h | h <;> subst h <;> decide
  have hs : flag = "-s" ∨ flag = "--scale" := hflag
  rw [parseOptions, if_neg ho, if_pos hs]

theorem expectedMain_of_options {σ : Type} (encodeText : String → Except String QrCode)
    (opens : String → Bool) (png : TinyPngOut σ) (prog text : String) (options : List String)
    (outFile : String) (scale : Int) (htext : ¬ (text = "-h" ∨ text = "--help"))
    (hparse : parseOptions options "qrcode.png" 10 = some (outFile, scale)) :
    (∀ sc f o, (expectedMain (prog :: text :: options) encodeText opens png).saved
        = some (sc, f, o) → sc = scale ∧ f = outFile) ∧
    (∀ qr, encodeText text = .ok qr →
      (expectedMain (prog :: text :: options) encodeText opens png).saved
        = some (scale, outFile, expectedOutcome qr scale outFile opens png)) := by
  unfold expectedMain
  simp only [if_neg htext, hparse]
  cases he : encodeText text with
  | error e => simp
  | ok qr =>
    simp only []
    by_cases hret : (expectedOutcome qr scale outFile opens png).ret ≠ 0
    · rw [if_pos hret]
      constructor
      · intro sc f o h
        simp at h
        exact ⟨h.1.symm, h.2.1.symm⟩
      · intro qr2 h2
        cases h2
        rfl
    · rw [if_neg hret]
      constructor
      · intro sc f o h
        simp at h
        exact ⟨h.1.symm, h.2.1.symm⟩
      · intro qr2 h2
        cases h2
        rfl

theorem expectedMain_cases {σ : Type} (argv : List String)
    (encodeText : String → Except String QrCode) (opens : String → Bool) (png : TinyPngOut σ) :
    (expectedMain argv encodeText opens png = ⟨1, true, none⟩ ∧
      ∀ prog text options, argv = prog :: text :: options →
        ¬ (text = "-h" ∨ text = "--help") ∧ parseOptions options "qrcode.png" 10 = none) ∨
    (expectedMain argv encodeText opens png = ⟨0, true, none⟩ ∧
      ∃ prog text options, argv = prog :: text :: options ∧ (text = "-h" ∨ text = "--help")) ∨
    (∃ prog text options f sc e, argv = prog :: text :: options ∧
      ¬ (text = "-h" ∨ text = "--help") ∧ parseOptions options "qrcode.png" 10 = some (f, sc) ∧
      encodeText text = .error e ∧
      expectedMain argv encodeText opens png = ⟨1, false, none⟩) ∨
    (∃ prog text options f sc qr, argv = prog :: text :: options ∧
      ¬ (text = "-h" ∨ text = "--help") ∧ parseOptions options "qrcode.png" 10 = some (f, sc) ∧
      encodeText text = .ok qr ∧
      expectedMain argv encodeText opens png
        = ⟨if (expectedOutcome qr sc f opens png).ret ≠ 0 then (1 : Int) else 0, false,
            some (sc, f, expectedOutcome qr sc f opens png)⟩) := by
  match argv with
  | [] => exact Or.inl ⟨rfl, fun _ _ _ h => by cases h⟩
  | [_] => exact Or.inl ⟨rfl, fun _ _ _ h => by cases h⟩
  | prog :: text :: options =>
    by_cases hh : text = "-h" ∨ text = "--help"
    · refine Or.inr (Or.inl ⟨?_, prog, text, options, rfl, hh⟩)
      unfold expectedMain
      dsimp only
      rw [if_pos hh]
    · cases hp : parseOptions options "qrcode.png" 10 with
      | none =>
        refine Or.inl ⟨?_, ?_⟩
        · unfold expectedMain
          dsimp only
          rw [if_neg hh, hp]
        · intro p t os harg
          cases harg
          exact ⟨hh, hp⟩
      | some r =>
        obtain ⟨outFile, scale⟩ := r
        cases he : encodeText text with
        | error e =>
          refine Or.inr (Or.inr (Or.inl ⟨prog, text, options, outFile, scale, e, rfl, hh, hp, he, ?_⟩))
          unfold expectedMain
          dsimp only
          rw [if_neg hh, hp]
          simp only [he]
        | ok qr =>
          refine Or.inr (Or.inr (Or.inr ⟨prog, text, options, outFile, scale, qr, rfl, hh, hp, he, ?_⟩))
          unfold expectedMain
          dsimp only
          rw [if_neg hh, hp]
          simp only [he]
          by_cases hret : (expectedOutcome qr scale outFile opens png).ret ≠ 0
          · rw [if_pos hret, if_pos hret]
          · rw [if_neg hret, if_neg hret]

theorem expectedMain_saved {σ : Type} (argv : List String)
    (encodeText : String → Except String QrCode) (opens : String → Bool) (png : TinyPngOut σ)
    (sc : Int) (f : String) (o : Outcome)
    (h : (expectedMain argv encodeText opens png).saved = some (sc, f, o)) :
    ∃ prog text options qr, argv = prog :: text :: options ∧
      ¬ (text = "-h" ∨ text = "--help") ∧
      parseOptions options "qrcode.png" 10 = some (f, sc) ∧
      encodeText text = .ok qr ∧ o = expectedOutcome qr sc f opens png ∧
      (expectedMain argv encodeText opens png).exitCode = (if o.ret ≠ 0 then 1 else 0) := by
  rcases expectedMain_cases argv encodeText opens png with
    ⟨hv, _⟩ | ⟨hv, _⟩ | ⟨_, _, _, _, _, _, _, _, _, _, hv⟩ |
    ⟨prog, text, options, f2, sc2, qr, harg, hh, hp, he, hv⟩
  · rw [hv] at h; simp at h
  · rw [hv] at h; simp at h
  · rw [hv] at h; simp at h
  · rw [hv] at h ⊢
    simp only [Option.some.injEq, Prod.mk.injEq] at h
    obtain ⟨h1, h2, h3⟩ := h
    subst h1; subst h2; subst h3
    exact ⟨prog, text, options, qr, harg, hh, hp, he, rfl, rfl⟩

theorem expectedMain_exit {σ : Type} (argv : List String)
    (encodeText : String → Except String QrCode) (opens : String → Bool) (png : TinyPngOut σ) :
    ((expectedMain argv encodeText opens png).exitCode = 0 ∨
      (expectedMain argv encodeText opens png).exitCode = 1) ∧
    ((expectedMain argv encodeText opens png).exitCode = 0 →
      ((expectedMain argv encodeText opens png).usage = true ∧
        (expectedMain argv encodeText opens png).saved = none) ∨
      ∃ sc f o, (expectedMain argv encodeText opens png).saved = some (sc, f, o) ∧ o.ret = 0) ∧
    (∀ prog text options e, argv = prog :: text :: options →
      ¬ (text = "-h" ∨ text = "--help") → encodeText text = .error e →
      (expectedMain argv encodeText opens png).exitCode = 1 ∧
      (expectedMain argv encodeText opens png).saved = none) := by
  rcases expectedMain_cases argv encodeText opens png with
    ⟨hv, hx⟩ | ⟨hv, p, t, os, harg, hh⟩ | ⟨_, _, _, _, _, _, _, _, _, _, hv⟩ |
    ⟨prog, text, options, f2, sc2, qr, harg, hh, hp, he, hv⟩
  · rw [hv]
    refine ⟨Or.inr rfl, fun h => absurd h (by decide), fun _ _ _ _ _ _ _ => ⟨rfl, rfl⟩⟩
  · rw [hv]
    refine ⟨Or.inl rfl, fun _ => Or.inl ⟨rfl, rfl⟩, ?_⟩
    intro p2 t2 os2 e harg2 hnh _
    rw [harg] at harg2
    cases harg2
    exact absurd hh hnh
  · rw [hv]
    refine ⟨Or.inr rfl, fun h => absurd h (by decide), fun _ _ _ _ _ _ _ => ⟨rfl, rfl⟩⟩
  · rw [hv]
    refine ⟨?_, ?_, ?_⟩
    · by_cases hret : (expectedOutcome qr sc2 f2 opens png).ret ≠ 0
      · right; simp [hret]
      · left; simpa using hret
    · intro hex
      right
      refine ⟨_, _, _, rfl, ?_⟩
      by_contra hret
      have : (if (expectedOutcome qr sc2 f2 opens png).ret ≠ 0 then (1 : Int) else 0) = 0 := hex
      rw [if_pos hret] at this
      exact absurd this (by decide)
    · intro p2 t2 os2 e harg2 _ herr
      rw [harg] at harg2
      cases harg2
      rw [he] at herr
      cases herr

/-! ## Rows, declared size and option parsing: auxiliary facts -/

theorem savePng_rows {σ : Type} (qr : QrCode) (scale : Int) (filename : String)
    (opens : String → Bool) (png : TinyPngOut σ) (hscale : 1 ≤ scale)
    (px py : Nat) (hpx : (px : Int) < pixelCount qr.getSize scale)
    (hpy : (py : Int) < pixelCount qr.getSize scale) :
    ∃ o, savePng qr scale filename opens png = .ok o ∧
      (∀ call, o.writes[py]? = some call →
        call.row.length = 3 * (pixelCount qr.getSize scale).toNat ∧
        call.row[3 * px]? = some (pixelAt qr scale px py) ∧
        call.row[3 * px + 1]? = some (pixelAt qr scale px py) ∧
        call.row[3 * px + 2]? = some (pixelAt qr scale px py) ∧
        ∀ b ∈ call.row, b = 0 ∨ b = 255) ∧
      (opens filename = true → png.NeverFails → ∃ call, o.writes[py]? = some call) := by
  have hr := pixelCount_range qr.getSize scale
  refine ⟨expectedOutcome qr scale filename opens png, savePng_eq _ _ _ _ _, ?_, ?_⟩
  · intro call hcall
    obtain ⟨_, hrow, _, _⟩ := (expectedOutcome_shape qr scale filename opens png).1 py call hcall
    have hv := pixelValue_eq_pixelAt qr scale (px : Int) (py : Int) hscale
      (by omega) (by omega) (by omega) (by omega)
    have hpxn : px < (pixelCount qr.getSize scale).toNat := by omega
    have b0 := codeRow_byte qr scale qr.getSize (pixelCount qr.getSize scale) py px 0 hpxn (by omega)
    have b1 := codeRow_byte qr scale qr.getSize (pixelCount qr.getSize scale) py px 1 hpxn (by omega)
    have b2 := codeRow_byte qr scale qr.getSize (pixelCount qr.getSize scale) py px 2 hpxn (by omega)
    rw [hv] at b0 b1 b2
    rw [hrow]
    exact ⟨codeRow_length _ _ _ _ _, b0, b1, b2, codeRow_values _ _ _ _ _⟩
  · intro ho hpng
    rw [expectedOutcome_neverFails qr scale filename opens png ho hpng (by omega)]
    have hpyn : py < (pixelCount qr.getSize scale).toNat := by omega
    simp [List.getElem?_range hpyn]

theorem expectedOutcome_created {σ : Type} (qr : QrCode) (scale : Int) (filename : String)
    (opens : String → Bool) (png : TinyPngOut σ) :
    (∀ w h b, (expectedOutcome qr scale filename opens png).created = some (w, h, b) →
      w = toUint32 (pixelCount qr.getSize scale) ∧ h = toUint32 (pixelCount qr.getSize scale)) ∧
    (opens filename = true →
      ∃ b, (expectedOutcome qr scale filename opens png).created
        = some (toUint32 (pixelCount qr.getSize scale), toUint32 (pixelCount qr.getSize scale), b)) := by
  by_cases ho : opens filename = false
  · rw [expectedOutcome_unopened qr scale filename opens png ho]; simp [ho]
  · have ho2 : opens filename = true := by simpa using ho
    cases hc : png.create (toUint32 (pixelCount qr.getSize scale))
        (toUint32 (pixelCount qr.getSize scale)) with
    | error e =>
      rw [expectedOutcome_rejected qr scale filename opens png ho2 e hc]
      refine ⟨?_, fun _ => ⟨false, rfl⟩⟩
      intro w h b hh
      simp at hh
      exact ⟨hh.1.symm, hh.2.1.symm⟩
    | ok st =>
      by_cases hneg : pixelCount qr.getSize scale < 0
      · rw [expectedOutcome_tooLarge qr scale filename opens png ho2 st hc hneg]
        refine ⟨?_, fun _ => ⟨true, rfl⟩⟩
        intro w h b hh
        simp at hh
        exact ⟨hh.1.symm, hh.2.1.symm⟩
      · rw [expectedOutcome_fed qr scale filename opens png ho2 st hc hneg]
        refine ⟨?_, fun _ => ⟨true, rfl⟩⟩
        intro w h b hh
        simp at hh
        exact ⟨hh.1.symm, hh.2.1.symm⟩

theorem toUint32_nonneg {p : Int} (h0 : 0 ≤ p) (h1 : p ≤ 2147483647) :
    ((toUint32 p : Nat) : Int) = p ∧ toUint32 p = p.toNat := by
  unfold toUint32
  have : p % 4294967296 = p := Int.emod_eq_of_lt h0 (by omega)
  rw [this]
  exact ⟨by omega, rfl⟩

theorem acceptAll_neverFails : acceptAll.NeverFails :=
  ⟨fun _ _ => ⟨(), rfl⟩, fun _ _ _ => ⟨(), rfl⟩⟩

theorem main_congr {σ : Type} (encodeText : String → Except String QrCode)
    (opens : String → Bool) (png : TinyPngOut σ) (prog text : String) (a b : List String)
    (h : parseOptions a "qrcode.png" 10 = parseOptions b "qrcode.png" 10) :
    main (prog :: text :: a) encodeText opens png = main (prog :: text :: b) encodeText opens png := by
  simp only [main, h]

theorem parseOptions_with_scale (before after : List (String × String)) (flag v : String)
    (hbefore : ∀ p ∈ before, isOutputFlag p.1 ∨ isScaleFlag p.1)
    (hafter : ∀ p ∈ after, isOutputFlag p.1) (hflag : isScaleFlag flag) :
    ∃ outFile, parseOptions (optionArgs before ++ flag :: v :: optionArgs after) "qrcode.png" 10
      = some (outFile, if atoi v ≤ 0 then 10 else atoi v) := by
  rw [parseOptions_optionArgs before _ _ _ hbefore, parseOptions_scale_step _ _ _ _ _ hflag]
  have h := parseOptions_optionArgs after [] (applyOptions before "qrcode.png" 10).1
    (if atoi v ≤ 0 then 10 else atoi v) (fun p hp => Or.inl (hafter p hp))
  rw [List.append_nil] at h
  rw [h, applyOptions_output after _ _ hafter]
  exact ⟨_, rfl⟩

theorem parseOptions_scale_default (v : String) (rest : List String) (outFile : String)
    (scale : Int) (flag : String) (hflag : isScaleFlag flag) (hv : atoi v ≤ 0) :
    parseOptions (flag :: v :: rest) outFile scale
      = parseOptions (flag :: "10" :: rest) outFile scale := by
  rw [parseOptions_scale_step _ _ _ _ _ hflag, parseOptions_scale_step _ _ _ _ _ hflag,
    if_pos hv]
  rfl

theorem main_with_scale {σ : Type} (encodeText : String → Except String QrCode)
    (opens : String → Bool) (png : TinyPngOut σ) (prog text : String)
    (before after : List (String × String)) (flag v : String)
    (htext : ¬ (text = "-h" ∨ text = "--help"))
    (hbefore : ∀ p ∈ before, isOutputFlag p.1 ∨ isScaleFlag p.1)
    (hafter : ∀ p ∈ after, isOutputFlag p.1) (hflag : isScaleFlag flag) :
    (atoi v ≤ 0 →
      main (prog :: text :: (optionArgs before ++ flag :: v :: optionArgs after))
          encodeText opens png
        = main (prog :: text :: (optionArgs before ++ flag :: "10" :: optionArgs after))
          encodeText opens png) ∧
    ∃ m, main (prog :: text :: (optionArgs before ++ flag :: v :: optionArgs after))
        encodeText opens png = .ok m ∧
      (∀ sc f o, m.saved = some (sc, f, o) → sc = if atoi v ≤ 0 then 10 else atoi v) ∧
      (∀ qr, encodeText text = .ok qr →
        ∃ f o, m.saved = some (if atoi v ≤ 0 then 10 else atoi v, f, o)) := by
  constructor
  · intro hv
    apply main_congr
    rw [parseOptions_optionArgs before _ _ _ hbefore, parseOptions_optionArgs before _ _ _ hbefore]
    exact parseOptions_scale_default v _ _ _ flag hflag hv
  · obtain ⟨outFile, hparse⟩ := parseOptions_with_scale before after flag v hbefore hafter hflag
    obtain ⟨h1, h2⟩ := expectedMain_of_options encodeText opens png prog text _ outFile _
      htext hparse
    refine ⟨_, main_eq _ _ _ _, ?_, ?_⟩
    · intro sc f o h
      exact (h1 sc f o h).1
    · intro qr hqr
      exact ⟨_, _, h2 qr hqr⟩

theorem main_without_scale {σ : Type} (encodeText : String → Except String QrCode)
    (opens : String → Bool) (png : TinyPngOut σ) (prog text : String)
    (after : List (String × String))
    (htext : ¬ (text = "-h" ∨ text = "--help"))
    (hafter : ∀ p ∈ after, isOutputFlag p.1) :
    ∃ m, main (prog :: text :: optionArgs after) encodeText opens png = .ok m ∧
      (∀ sc f o, m.saved = some (sc, f, o) → sc = 10) ∧
      (∀ qr, encodeText text = .ok qr → ∃ f o, m.saved = some (10, f, o)) := by
  have h := parseOptions_optionArgs after [] "qrcode.png" 10 (fun p hp => Or.inl (hafter p hp))
  rw [List.append_nil, applyOptions_output after _ _ hafter] at h
  have hparse : parseOptions (optionArgs after) "qrcode.png" 10
      = some ((applyOptions after "qrcode.png" 10).1, 10) := by rw [h]; rfl
  obtain ⟨h1, h2⟩ := expectedMain_of_options encodeText opens png prog text _ _ _ htext hparse
  refine ⟨_, main_eq _ _ _ _, ?_, ?_⟩
  · intro sc f o h
    exact (h1 sc f o h).1
  · intro qr hqr
    exact ⟨_, _, h2 qr hqr⟩

theorem leadingDigits_all (ds : List Char) (h : ds.all isDigit = true) :
    ∀ acc, leadingDigits ds acc = ds.foldl (fun a c => a * 10 + (c.toNat - 48)) acc := by
  induction ds with
  | nil => intro acc; rfl
  | cons c rest ih =>
    intro acc
    rw [List.all_cons, Bool.and_eq_true] at h
    simp only [leadingDigits, h.1, if_true, List.foldl_cons]
    exact ih h.2 _

theorem leadingDigits_value (ds : List Char) (h : allDigits ds = true) :
    leadingDigits ds 0 = digitsValue ds := by
  unfold allDigits at h
  rw [Bool.and_eq_true] at h
  exact leadingDigits_all ds h.2 0

theorem dropWhile_isSpace_cons (c : Char) (rest : List Char) (h : isSpace c = false) :
    (c :: rest).dropWhile isSpace = c :: rest := by
  simp [List.dropWhile, h]

theorem wrap_clamp_of_range {n : Int} (h0 : -2147483648 ≤ n) (h1 : n ≤ 2147483647) :
    wrapInt (clampLong n) = n := by
  unfold clampLong
  rw [if_neg (by omega), if_neg (by omega)]
  exact wrapInt_of_range h0 h1

theorem atoi_integerValue (v : String) (n : Int) (hv : integerValue v = some n)
    (h0 : -2147483648 ≤ n) (h1 : n ≤ 2147483647) : atoi v = n := by
  unfold integerValue at hv
  unfold atoi
  generalize v.toList = cs at hv ⊢
  split at hv
  · rename_i ds
    split at hv
    · rename_i hd
      rw [dropWhile_isSpace_cons _ _ (by decide)]
      simp only [leadingDigits_value ds hd]
      simp only [Option.some.injEq] at hv
      rw [hv]
      exact wrap_clamp_of_range h0 h1
    · simp at hv
  · rename_i ds
    split at hv
    · rename_i hd
      rw [dropWhile_isSpace_cons _ _ (by decide)]
      simp only [leadingDigits_value ds hd]
      simp only [Option.some.injEq] at hv
      rw [hv]
      exact wrap_clamp_of_range h0 h1
    · simp at hv
  · rename_i hminus hplus
    split at hv
    · rename_i hd
      cases cs with
      | nil => simp [allDigits] at hd
      | cons c rest =>
        have hc : isDigit c = true := by
          simp only [allDigits, List.all_cons, Bool.and_eq_true] at hd
          exact hd.2.1
        have hsp : isSpace c = false := by
          unfold isDigit at hc
          unfold isSpace
          simp only [Bool.and_eq_true, decide_eq_true_eq] at hc
          simp only [Bool.or_eq_false_iff, decide_eq_false_iff_not, Bool.and_eq_false_iff]
          omega
        rw [dropWhile_isSpace_cons _ _ hsp]
        simp only [Option.some.injEq] at hv
        split
        · rename_i ds heq
          exact absurd heq (hminus ds)
        · rename_i ds heq
          exact absurd heq (hplus ds)
        · rw [leadingDigits_value _ hd, hv]
          exact wrap_clamp_of_range h0 h1
    · simp at hv

/-! ## Claims about `savePng` -/

/-- C1 (amended): for a grid of side `size ≥ 1`, a scale `≥ 1` and
`0 ≤ px, py < pixels`, where `pixels` is the `int` value the program computes
for `(size + 8) * scale` (equal to that product whenever it fits an `int`, never
larger), the run of `savePng` never faults, and the row it hands to the encoder
for `py` has `3 * pixels` bytes whose entries at `3*px`, `3*px+1`, `3*px+2` all
equal the spec's `pixelAt(px, py)`; every byte of the row is 0 or 255, so
nothing of the previous contents of the reused buffer survives. When the file
opens and the encoder never throws, that row is indeed handed over. -/
theorem savePng_row_is_pixelAt {σ : Type} (qr : QrCode) (scale : Int) (filename : String)
    (opens : String → Bool) (png : TinyPngOut σ) (hsize : 1 ≤ qr.getSize) (hscale : 1 ≤ scale)
    (px py : Nat) (hpx : (px : Int) < pixelCount qr.getSize scale)
    (hpy : (py : Int) < pixelCount qr.getSize scale) :
    (pixelCount qr.getSize scale ≤ (qr.getSize + 8) * scale ∧
      ((qr.getSize + 8) * scale ≤ INT_MAX →
        pixelCount qr.getSize scale = (qr.getSize + 8) * scale)) ∧
    ∃ o, savePng qr scale filename opens png = .ok o ∧
      (∀ call, o.writes[py]? = some call →
        call.row.length = 3 * (pixelCount qr.getSize scale).toNat ∧
        call.row[3 * px]? = some (pixelAt qr scale px py) ∧
        call.row[3 * px + 1]? = some (pixelAt qr scale px py) ∧
        call.row[3 * px + 2]? = some (pixelAt qr scale px py) ∧
        ∀ b ∈ call.row, b = 0 ∨ b = 255) ∧
      (opens filename = true → png.NeverFails → ∃ call, o.writes[py]? = some call) :=
  ⟨⟨pixelCount_le hsize hscale, fun hfit => pixelCount_eq hsize hscale hfit⟩,
    savePng_rows qr scale filename opens png hscale px py hpx hpy⟩

theorem savePng_row_is_pixelAt_witness :
    (1 ≤ unitDark.getSize ∧ (1 : Int) ≤ 1 ∧ ((4 : Nat) : Int) < pixelCount unitDark.getSize 1) ∧
    ((pixelCount unitDark.getSize 1 ≤ (unitDark.getSize + 8) * 1 ∧
      ((unitDark.getSize + 8) * 1 ≤ INT_MAX →
        pixelCount unitDark.getSize 1 = (unitDark.getSize + 8) * 1)) ∧
    ∃ o, savePng unitDark 1 "qrcode.png" (fun _ => true) acceptAll = .ok o ∧
      (∀ call, o.writes[4]? = some call →
        call.row.length = 3 * (pixelCount unitDark.getSize 1).toNat ∧
        call.row[3 * 4]? = some (pixelAt unitDark 1 (4 : Nat) (4 : Nat)) ∧
        call.row[3 * 4 + 1]? = some (pixelAt unitDark 1 (4 : Nat) (4 : Nat)) ∧
        call.row[3 * 4 + 2]? = some (pixelAt unitDark 1 (4 : Nat) (4 : Nat)) ∧
        ∀ b ∈ call.row, b = 0 ∨ b = 255) ∧
      ((fun _ => true) "qrcode.png" = true → acceptAll.NeverFails →
        ∃ call, o.writes[4]? = some call)) :=
  ⟨⟨by decide, by decide, by decide⟩,
    savePng_row_is_pixelAt unitDark 1 "qrcode.png" (fun _ => true) acceptAll
      (by decide) (by decide) 4 4 (by decide) (by decide)⟩

/-- C1 as stated fails: for the grid of side 21 and scale 1332920885 the
product `(size + 8) * scale` is 38654705665, but the `int` value `pixels` wraps
to 1: with the file open and an encoder that accepts everything, the row for
`py = 0` has 3 bytes, not `3 * 38654705665`, and no row is handed over for
`py = 1`. -/
theorem row_length_wraps :
    (1 ≤ grid21.getSize ∧ (1 : Int) ≤ 1332920885 ∧ (1332920885 : Int) ≤ INT_MAX) ∧
    (grid21.getSize + 8) * 1332920885 = 38654705665 ∧
    savePng grid21 1332920885 "qrcode.png" (fun _ => true) acceptAll
      = .ok ⟨0, some (1, 1, true), [⟨[255, 255, 255], 1, true⟩]⟩ ∧
    ([255, 255, 255] : List Nat).length ≠ 3 * 38654705665 ∧
    ([⟨[255, 255, 255], 1, true⟩] : List WriteCall)[1]? = none :=
  ⟨by decide, by decide, by rfl, by decide, by rfl⟩

/-- C2 (amended): for a grid of side `size ≥ 1`, a scale `≥ 1` with
`(size + 8) * scale ≤ 2147483647` and a module `(mx, my)` inside the grid, every
pixel `(px, py)` of the block `(mx + 4) * scale ≤ px < (mx + 5) * scale`,
`(my + 4) * scale ≤ py < (my + 5) * scale` is an output pixel (`px, py < pixels`,
and `pixels` is `(size + 8) * scale`), and `savePng` stores it as 0 in all three
channels when the module is dark and as 255 when it is light; the run never
faults, and the row is handed over when the file opens and the encoder never
throws. -/
theorem savePng_module_block {σ : Type} (qr : QrCode) (scale : Int) (filename : String)
    (opens : String → Bool) (png : TinyPngOut σ) (hsize : 1 ≤ qr.getSize) (hscale : 1 ≤ scale)
    (hfit : (qr.getSize + 8) * scale ≤ INT_MAX)
    (mx my : Int) (hmx0 : 0 ≤ mx) (hmx1 : mx < qr.getSize) (hmy0 : 0 ≤ my)
    (hmy1 : my < qr.getSize) (px py : Nat)
    (hx0 : (mx + 4) * scale ≤ (px : Int)) (hx1 : (px : Int) < (mx + 5) * scale)
    (hy0 : (my + 4) * scale ≤ (py : Int)) (hy1 : (py : Int) < (my + 5) * scale) :
    pixelCount qr.getSize scale = (qr.getSize + 8) * scale ∧
    (px : Int) < pixelCount qr.getSize scale ∧ (py : Int) < pixelCount qr.getSize scale ∧
    ∃ o, savePng qr scale filename opens png = .ok o ∧
      (∀ call, o.writes[py]? = some call →
        call.row[3 * px]? = some (if qr.modules mx my = true then 0 else 255) ∧
        call.row[3 * px + 1]? = some (if qr.modules mx my = true then 0 else 255) ∧
        call.row[3 * px + 2]? = some (if qr.modules mx my = true then 0 else 255)) ∧
      (opens filename = true → png.NeverFails → ∃ call, o.writes[py]? = some call) := by
  have he := pixelCount_eq hsize hscale hfit
  have hpx : (px : Int) < pixelCount qr.getSize scale := by rw [he]; nlinarith
  have hpy : (py : Int) < pixelCount qr.getSize scale := by rw [he]; nlinarith
  refine ⟨he, hpx, hpy, ?_⟩
  obtain ⟨o, ho, hrow, hex⟩ := savePng_rows qr scale filename opens png hscale px py hpx hpy
  refine ⟨o, ho, ?_, hex⟩
  intro call hcall
  obtain ⟨_, b0, b1, b2, _⟩ := hrow call hcall
  have dx : Int.fdiv (px : Int) scale = mx + 4 :=
    div_of_block hscale hx0 (by linarith)
  have dy : Int.fdiv (py : Int) scale = my + 4 :=
    div_of_block hscale hy0 (by linarith)
  have hv : pixelAt qr scale px py = if qr.modules mx my = true then 0 else 255 := by
    unfold pixelAt
    simp only [dx, dy]
    have e1 : mx + 4 - 4 = mx := by omega
    have e2 : my + 4 - 4 = my := by omega
    have hsz : qr.getSize = qr.size := rfl
    rw [e1, e2, if_neg (by omega)]
  rw [hv] at b0 b1 b2
  exact ⟨b0, b1, b2⟩

theorem savePng_module_block_witness :
    (1 ≤ unitDark.getSize ∧ (1 : Int) ≤ 1 ∧ (unitDark.getSize + 8) * 1 ≤ INT_MAX ∧
      (0 : Int) ≤ 0 ∧ 0 < unitDark.getSize ∧
      ((0 : Int) + 4) * 1 ≤ ((4 : Nat) : Int) ∧ ((4 : Nat) : Int) < ((0 : Int) + 5) * 1) ∧
    (pixelCount unitDark.getSize 1 = (unitDark.getSize + 8) * 1 ∧
    ((4 : Nat) : Int) < pixelCount unitDark.getSize 1 ∧
    ((4 : Nat) : Int) < pixelCount unitDark.getSize 1 ∧
    ∃ o, savePng unitDark 1 "qrcode.png" (fun _ => true) acceptAll = .ok o ∧
      (∀ call, o.writes[4]? = some call →
        call.row[3 * 4]? = some (if unitDark.modules 0 0 = true then 0 else 255) ∧
        call.row[3 * 4 + 1]? = some (if unitDark.modules 0 0 = true then 0 else 255) ∧
        call.row[3 * 4 + 2]? = some (if unitDark.modules 0 0 = true then 0 else 255)) ∧
      ((fun _ => true) "qrcode.png" = true → acceptAll.NeverFails →
        ∃ call, o.writes[4]? = some call)) :=
  ⟨⟨by decide, by decide, by decide, by decide, by decide, by decide, by decide⟩,
    savePng_module_block unitDark 1 "qrcode.png" (fun _ => true) acceptAll
      (by decide) (by decide) (by decide) 0 0 (by decide) (by decide) (by decide) (by decide)
      4 4 (by decide) (by decide) (by decide) (by decide)⟩

/-- C2 as stated fails: for the 1x1 all-dark grid and scale 477218589 the product
`(size + 8) * scale` is 4294967301 and the `int` value `pixels` wraps to 5. With
the file open and an encoder that accepts everything `savePng` returns 0 after
writing a 5x5 image that is white throughout: the pixel `(1908874356, 1908874356)`
of the block of the dark module `(0, 0)` is not produced, and no pixel is black. -/
theorem dark_module_without_block :
    (1 ≤ unitDark.getSize ∧ (1 : Int) ≤ 477218589 ∧ (477218589 : Int) ≤ INT_MAX ∧
      unitDark.modules 0 0 = true ∧
      ((0 : Int) + 4) * 477218589 ≤ ((1908874356 : Nat) : Int) ∧
      ((1908874356 : Nat) : Int) < ((0 : Int) + 5) * 477218589) ∧
    (unitDark.getSize + 8) * 477218589 = 4294967301 ∧
    savePng unitDark 477218589 "qrcode.png" (fun _ => true) acceptAll
      = .ok ⟨0, some (5, 5, true),
          List.replicate 5 (⟨List.replicate 15 255, 5, true⟩ : WriteCall)⟩ ∧
    (List.replicate 5 (⟨List.replicate 15 255, 5, true⟩ : WriteCall))[1908874356]? = none :=
  ⟨by decide, by decide, by rfl, by rfl⟩

/-- C3 (amended): for a grid of side `size ≥ 1` with any contents, a scale `≥ 1`
with `(size + 8) * scale ≤ 2147483647` and a pixel `(px, py)` with
`0 ≤ px, py < (size + 8) * scale` in the border ring (`px < 4 * scale` or
`px ≥ (size + 4) * scale` or `py < 4 * scale` or `py ≥ (size + 4) * scale`), the
pixel is an output pixel (`px, py < pixels`) and `savePng` stores 255 in all
three of its channels; the run never faults, and the row is handed over when the
file opens and the encoder never throws. -/
theorem savePng_border_white {σ : Type} (qr : QrCode) (scale : Int) (filename : String)
    (opens : String → Bool) (png : TinyPngOut σ) (hsize : 1 ≤ qr.getSize) (hscale : 1 ≤ scale)
    (hfit : (qr.getSize + 8) * scale ≤ INT_MAX)
    (px py : Nat) (hpx : (px : Int) < (qr.getSize + 8) * scale)
    (hpy : (py : Int) < (qr.getSize + 8) * scale)
    (hring : (px : Int) < 4 * scale ∨ (qr.getSize + 4) * scale ≤ (px : Int) ∨
      (py : Int) < 4 * scale ∨ (qr.getSize + 4) * scale ≤ (py : Int)) :
    ((px : Int) < pixelCount qr.getSize scale ∧ (py : Int) < pixelCount qr.getSize scale) ∧
    ∃ o, savePng qr scale filename opens png = .ok o ∧
      (∀ call, o.writes[py]? = some call →
        call.row[3 * px]? = some 255 ∧ call.row[3 * px + 1]? = some 255 ∧
        call.row[3 * px + 2]? = some 255) ∧
      (opens filename = true → png.NeverFails → ∃ call, o.writes[py]? = some call) := by
  have he := pixelCount_eq hsize hscale hfit
  have hpx2 : (px : Int) < pixelCount qr.getSize scale := by rw [he]; exact hpx
  have hpy2 : (py : Int) < pixelCount qr.getSize scale := by rw [he]; exact hpy
  refine ⟨⟨hpx2, hpy2⟩, ?_⟩
  obtain ⟨o, ho, hrow, hex⟩ := savePng_rows qr scale filename opens png hscale px py hpx2 hpy2
  refine ⟨o, ho, ?_, hex⟩
  intro call hcall
  obtain ⟨_, b0, b1, b2, _⟩ := hrow call hcall
  have hs : 0 < scale := by omega
  have hsz : qr.getSize = qr.size := rfl
  have hv : pixelAt qr scale px py = 255 := by
    unfold pixelAt
    simp only [Int.fdiv_eq_ediv _ (le_of_lt hs)]
    apply if_pos
    rcases hring with h | h | h | h
    · left
      have : (px : Int) / scale < 4 := (Int.ediv_lt_iff_lt_mul hs).2 h
      omega
    · right; left
      have : qr.getSize + 4 ≤ (px : Int) / scale := (Int.le_ediv_iff_mul_le hs).2 h
      omega
    · right; right; left
      have : (py : Int) / scale < 4 := (Int.ediv_lt_iff_lt_mul hs).2 h
      omega
    · right; right; right
      have : qr.getSize + 4 ≤ (py : Int) / scale := (Int.le_ediv_iff_mul_le hs).2 h
      omega
  rw [hv] at b0 b1 b2
  exact ⟨b0, b1, b2⟩

theorem savePng_border_white_witness :
    (1 ≤ unitDark.getSize ∧ (1 : Int) ≤ 1 ∧ (unitDark.getSize + 8) * 1 ≤ INT_MAX ∧
      ((5 : Nat) : Int) < (unitDark.getSize + 8) * 1 ∧
      ((4 : Nat) : Int) < (unitDark.getSize + 8) * 1 ∧
      (((5 : Nat) : Int) < 4 * 1 ∨ (unitDark.getSize + 4) * 1 ≤ ((5 : Nat) : Int) ∨
        ((4 : Nat) : Int) < 4 * 1 ∨ (unitDark.getSize + 4) * 1 ≤ ((4 : Nat) : Int))) ∧
    ((((5 : Nat) : Int) < pixelCount unitDark.getSize 1 ∧
      ((4 : Nat) : Int) < pixelCount unitDark.getSize 1) ∧
    ∃ o, savePng unitDark 1 "qrcode.png" (fun _ => true) acceptAll = .ok o ∧
      (∀ call, o.writes[4]? = some call →
        call.row[3 * 5]? = some 255 ∧ call.row[3 * 5 + 1]? = some 255 ∧
        call.row[3 * 5 + 2]? = some 255) ∧
      ((fun _ => true) "qrcode.png" = true → acceptAll.NeverFails →
        ∃ call, o.writes[4]? = some call)) :=
  ⟨⟨by decide, by decide, by decide, by decide, by decide, by decide⟩,
    savePng_border_white unitDark 1 "qrcode.png" (fun _ => true) acceptAll
      (by decide) (by decide) (by decide) 5 4 (by decide) (by decide) (by decide)⟩

/-- C3 as stated fails: for the 1x1 grid and scale 954437178 the product
`(size + 8) * scale` is 8589934602 and the `int` value `pixels` wraps to 10. With
the file open and an encoder that accepts everything `savePng` returns 0 after
writing a 10x10 image: the pixel `(10, 0)` has `0 ≤ px, py < (size + 8) * scale`
and lies in the border ring (`px < 4 * scale`), but row 0 has only 30 bytes, so
the pixel is not rendered at all. -/
theorem ring_pixel_not_produced :
    (1 ≤ unitDark.getSize ∧ (1 : Int) ≤ 954437178 ∧ (954437178 : Int) ≤ INT_MAX ∧
      ((10 : Nat) : Int) < (unitDark.getSize + 8) * 954437178 ∧
      ((0 : Nat) : Int) < (unitDark.getSize + 8) * 954437178 ∧
      ((10 : Nat) : Int) < 4 * 954437178) ∧
    (unitDark.getSize + 8) * 954437178 = 8589934602 ∧
    savePng unitDark 954437178 "qrcode.png" (fun _ => true) acceptAll
      = .ok ⟨0, some (10, 10, true),
          List.replicate 10 (⟨List.replicate 30 255, 10, true⟩ : WriteCall)⟩ ∧
    (List.replicate 10 (⟨List.replicate 30 255, 10, true⟩ : WriteCall))[0]?
      = some ⟨List.replicate 30 255, 10, true⟩ ∧
    (List.replicate 30 255)[3 * 10]? = none :=
  ⟨by decide, by decide, by rfl, by rfl, by rfl⟩

/-- The example of the spec: the 1x1 all-dark grid at scale 1 gives nine rows of
nine pixels, black at `(4, 4)` and white at the 80 other positions. -/
theorem unitDark_image :
    savePng unitDark 1 "qrcode.png" (fun _ => true) acceptAll
      = .ok ⟨0, some (9, 9, true), (List.range 9).map (fun py =>
          (⟨(List.range 27).map (fun i => if py = 4 ∧ i / 3 = 4 then 0 else 255), 9, true⟩ :
            WriteCall))⟩ := by
  rfl

/-- C4 (amended): for a grid of side `size ≥ 1` and a scale `≥ 1` with
`(size + 8) * scale ≤ 4294967295`, the width and the height `savePng` passes to
the encoder's constructor (the `int` value `pixels` converted to 32-bit
unsigned) both equal `(size + 8) * scale`, which is positive, and the
constructor is called whenever the file opens. The `int` value `pixels` itself
equals `(size + 8) * scale` and is positive when the product is at most
2147483647, and is negative above that. -/
theorem savePng_declared_size {σ : Type} (qr : QrCode) (scale : Int) (filename : String)
    (opens : String → Bool) (png : TinyPngOut σ) (hsize : 1 ≤ qr.getSize) (hscale : 1 ≤ scale)
    (hfit : (qr.getSize + 8) * scale ≤ 4294967295) :
    (∃ o, savePng qr scale filename opens png = .ok o ∧
      (∀ w h b, o.created = some (w, h, b) →
        (w : Int) = (qr.getSize + 8) * scale ∧ (h : Int) = (qr.getSize + 8) * scale ∧
        0 < w ∧ 0 < h) ∧
      (opens filename = true → ∃ w h b, o.created = some (w, h, b))) ∧
    ((qr.getSize + 8) * scale ≤ INT_MAX →
      pixelCount qr.getSize scale = (qr.getSize + 8) * scale ∧
      0 < pixelCount qr.getSize scale) ∧
    (INT_MAX < (qr.getSize + 8) * scale → pixelCount qr.getSize scale < 0) := by
  have hpos : 0 < (qr.getSize + 8) * scale := by nlinarith
  have hu := toUint32_pixelCount qr.getSize scale
  rw [Int.emod_eq_of_lt (le_of_lt hpos) (by omega)] at hu
  have hr := pixelCount_range qr.getSize scale
  obtain ⟨hc1, hc2⟩ := expectedOutcome_created qr scale filename opens png
  refine ⟨⟨expectedOutcome qr scale filename opens png, savePng_eq _ _ _ _ _, ?_, ?_⟩, ?_, ?_⟩
  · intro w h b hh
    obtain ⟨hw, hh2⟩ := hc1 w h b hh
    subst hw; subst hh2
    refine ⟨by omega, by omega, by omega, by omega⟩
  · intro ho
    obtain ⟨b, hb⟩ := hc2 ho
    exact ⟨_, _, b, hb⟩
  · intro hint
    have he := pixelCount_eq hsize hscale hint
    exact ⟨he, by omega⟩
  · intro hbig
    unfold INT_MAX at hbig
    have hm := pixelCount_emod qr.getSize scale
    rw [Int.emod_eq_of_lt (le_of_lt hpos) (by omega)] at hm
    by_contra hneg
    have h0 : 0 ≤ pixelCount qr.getSize scale := by omega
    rw [Int.emod_eq_of_lt h0 (by omega)] at hm
    omega

theorem savePng_declared_size_witness :
    (1 ≤ unitDark.getSize ∧ (1 : Int) ≤ 1 ∧ (unitDark.getSize + 8) * 1 ≤ 4294967295) ∧
    ((∃ o, savePng unitDark 1 "qrcode.png" (fun _ => true) acceptAll = .ok o ∧
      (∀ w h b, o.created = some (w, h, b) →
        (w : Int) = (unitDark.getSize + 8) * 1 ∧ (h : Int) = (unitDark.getSize + 8) * 1 ∧
        0 < w ∧ 0 < h) ∧
      ((fun _ => true) "qrcode.png" = true → ∃ w h b, o.created = some (w, h, b))) ∧
    ((unitDark.getSize + 8) * 1 ≤ INT_MAX →
      pixelCount unitDark.getSize 1 = (unitDark.getSize + 8) * 1 ∧
      0 < pixelCount unitDark.getSize 1) ∧
    (INT_MAX < (unitDark.getSize + 8) * 1 → pixelCount unitDark.getSize 1 < 0)) :=
  ⟨⟨by decide, by decide, by decide⟩,
    savePng_declared_size unitDark 1 "qrcode.png" (fun _ => true) acceptAll
      (by decide) (by decide) (by decide)⟩

/-- C4 as stated fails: for the grid of side 21 and the positive `int` scale
250000000 the product `(21 + 8) * 250000000 = 7250000000` does not fit an `int`:
the `int` value `pixels` wraps to -1339934592, which is not positive, and the
width and height `savePng` declares are 2955032704, not 7250000000. -/
theorem declared_size_wraps :
    (1 ≤ grid21.getSize ∧ (1 : Int) ≤ 250000000 ∧ (250000000 : Int) ≤ INT_MAX) ∧
    savePng grid21 250000000 "qrcode.png" (fun _ => true) acceptAll
      = .ok ⟨1, some (2955032704, 2955032704, true), []⟩ ∧
    ((2955032704 : Int) ≠ (grid21.getSize + 8) * 250000000) ∧
    pixelCount grid21.getSize 250000000 = -1339934592 ∧
    ¬ (0 < pixelCount grid21.getSize 250000000) :=
  ⟨by decide, by rfl, by decide, by decide, by decide⟩

/-- C5 (amended): for a grid of side `size ≥ 1` and a scale `≥ 1` for which the
`int` value `pixels` is not negative (in particular whenever `(size + 8) * scale`
fits an `int`, where `pixels` is that product), when the file opens and the
encoder never throws, `savePng` makes exactly `pixels` calls of `write`, the
constructor having been given `pixels` as width and height; the `k`-th call
passes the pixel count `pixels` and the row for `py = k`, whose `3 * pixels`
bytes are the spec's `pixelAt(px, k)` in the three channels of every `px`. -/
theorem savePng_write_calls {σ : Type} (qr : QrCode) (scale : Int) (filename : String)
    (opens : String → Bool) (png : TinyPngOut σ) (hsize : 1 ≤ qr.getSize) (hscale : 1 ≤ scale)
    (hpixels : 0 ≤ pixelCount qr.getSize scale) (hopen : opens filename = true)
    (hpng : png.NeverFails) :
    ((qr.getSize + 8) * scale ≤ INT_MAX →
      pixelCount qr.getSize scale = (qr.getSize + 8) * scale) ∧
    ∃ o, savePng qr scale filename opens png = .ok o ∧
      ((o.writes.length : Nat) : Int) = pixelCount qr.getSize scale ∧
      o.created = some (o.writes.length, o.writes.length, true) ∧
      ∀ k, k < o.writes.length →
        ∃ call, o.writes[k]? = some call ∧ call.count = o.writes.length ∧
          call.accepted = true ∧ call.row.length = 3 * o.writes.length ∧
          ∀ px, px < o.writes.length →
            call.row[3 * px]? = some (pixelAt qr scale px k) ∧
            call.row[3 * px + 1]? = some (pixelAt qr scale px k) ∧
            call.row[3 * px + 2]? = some (pixelAt qr scale px k) := by
  have hr := pixelCount_range qr.getSize scale
  have hu := toUint32_nonneg (p := pixelCount qr.getSize scale) hpixels hr.2
  have hz : toSizeT (pixelCount qr.getSize scale) = (pixelCount qr.getSize scale).toNat := by
    obtain ⟨n, hn⟩ := Int.eq_ofNat_of_zero_le hpixels
    rw [hn] at hr ⊢
    rw [toSizeT_nat hr.2, Int.toNat_ofNat]
  refine ⟨fun hfit => pixelCount_eq hsize hscale hfit,
    expectedOutcome qr scale filename opens png, savePng_eq _ _ _ _ _, ?_⟩
  rw [expectedOutcome_neverFails qr scale filename opens png hopen hpng hpixels]
  simp only [List.length_map, List.length_range, hu.2, hz]
  refine ⟨by omega, trivial, ?_⟩
  intro k hk
  refine ⟨_, by rw [List.getElem?_map, List.getElem?_range hk]; rfl, rfl, rfl,
    codeRow_length _ _ _ _ _, ?_⟩
  intro px hpx
  have hv := pixelValue_eq_pixelAt qr scale (px : Int) (k : Int) hscale
    (by omega) (by omega) (by omega) (by omega)
  have b0 := codeRow_byte qr scale qr.getSize (pixelCount qr.getSize scale) k px 0 hpx (by omega)
  have b1 := codeRow_byte qr scale qr.getSize (pixelCount qr.getSize scale) k px 1 hpx (by omega)
  have b2 := codeRow_byte qr scale qr.getSize (pixelCount qr.getSize scale) k px 2 hpx (by omega)
  rw [hv] at b0 b1 b2
  exact ⟨b0, b1, b2⟩

theorem savePng_write_calls_witness :
    (1 ≤ unitDark.getSize ∧ (1 : Int) ≤ 1 ∧ 0 ≤ pixelCount unitDark.getSize 1 ∧
      (fun _ => true) "qrcode.png" = true ∧ acceptAll.NeverFails) ∧
    (((unitDark.getSize + 8) * 1 ≤ INT_MAX →
      pixelCount unitDark.getSize 1 = (unitDark.getSize + 8) * 1) ∧
    ∃ o, savePng unitDark 1 "qrcode.png" (fun _ => true) acceptAll = .ok o ∧
      ((o.writes.length : Nat) : Int) = pixelCount unitDark.getSize 1 ∧
      o.created = some (o.writes.length, o.writes.length, true) ∧
      ∀ k, k < o.writes.length →
        ∃ call, o.writes[k]? = some call ∧ call.count = o.writes.length ∧
          call.accepted = true ∧ call.row.length = 3 * o.writes.length ∧
          ∀ px, px < o.writes.length →
            call.row[3 * px]? = some (pixelAt unitDark 1 px k) ∧
            call.row[3 * px + 1]? = some (pixelAt unitDark 1 px k) ∧
            call.row[3 * px + 2]? = some (pixelAt unitDark 1 px k)) :=
  ⟨⟨by decide, by decide, by decide, rfl, acceptAll_neverFails⟩,
    savePng_write_calls unitDark 1 "qrcode.png" (fun _ => true) acceptAll
      (by decide) (by decide) (by decide) rfl acceptAll_neverFails⟩

/-- C5 as stated fails: for the grid of side 21 and scale 100000000, with the
file open and an encoder that accepts everything, `(size + 8) * scale` is
2900000000; `savePng` declares that width and height, but the `int` value
`pixels` has wrapped to a negative number, so it makes no `write` call at all
and returns 1. -/
theorem negative_pixels_no_rows :
    (1 ≤ grid21.getSize ∧ (1 : Int) ≤ 100000000 ∧ (100000000 : Int) ≤ INT_MAX ∧
      acceptAll.NeverFails) ∧
    savePng grid21 100000000 "qrcode.png" (fun _ => true) acceptAll
      = .ok ⟨1, some (2900000000, 2900000000, true), []⟩ ∧
    (grid21.getSize + 8) * 100000000 = 2900000000 ∧
    pixelCount grid21.getSize 100000000 = -1394967296 :=
  ⟨⟨by decide, by decide, by decide, acceptAll_neverFails⟩, by rfl, by decide, by decide⟩

/-! ## Claims about `main` -/

/-- C6 (amended): on a command line `prog text options... -s v options...` (the
flag is `-s` or `--scale`, the options before it are complete `-o`/`-s` options,
those after it are `-o` options) whose scale value `v` is a decimal integer `n`
in the range of `int` (`-2147483648 ≤ n ≤ 2147483647`): `atoi` reads `n`; if
`n ≤ 0`, `main` does exactly what it does with `10` in place of `v`, and the
scale passed to `savePng` is 10; if `n > 0` the scale passed is `n`; and with no
`-s` option the scale passed is 10. `savePng` is called whenever the symbol
encoder returns a grid. -/
theorem main_scale_option {σ : Type} (encodeText : String → Except String QrCode)
    (opens : String → Bool) (png : TinyPngOut σ) (prog text : String)
    (before after : List (String × String)) (flag v : String) (n : Int)
    (htext : ¬ (text = "-h" ∨ text = "--help"))
    (hbefore : ∀ p ∈ before, isOutputFlag p.1 ∨ isScaleFlag p.1)
    (hafter : ∀ p ∈ after, isOutputFlag p.1) (hflag : isScaleFlag flag)
    (hv : integerValue v = some n) (hmin : -2147483648 ≤ n) (hmax : n ≤ INT_MAX) :
    atoi v = n ∧
    (n ≤ 0 →
      main (prog :: text :: (optionArgs before ++ flag :: v :: optionArgs after))
          encodeText opens png
        = main (prog :: text :: (optionArgs before ++ flag :: "10" :: optionArgs after))
          encodeText opens png) ∧
    (∃ m, main (prog :: text :: (optionArgs before ++ flag :: v :: optionArgs after))
        encodeText opens png = .ok m ∧
      (∀ sc f o, m.saved = some (sc, f, o) → sc = if n ≤ 0 then 10 else n) ∧
      (∀ qr, encodeText text = .ok qr → ∃ f o, m.saved = some (if n ≤ 0 then 10 else n, f, o))) ∧
    (∃ m, main (prog :: text :: optionArgs after) encodeText opens png = .ok m ∧
      (∀ sc f o, m.saved = some (sc, f, o) → sc = 10) ∧
      (∀ qr, encodeText text = .ok qr → ∃ f o, m.saved = some (10, f, o))) := by
  have hn : atoi v = n := atoi_integerValue v n hv hmin hmax
  subst hn
  obtain ⟨h1, h2⟩ := main_with_scale encodeText opens png prog text before after flag v
    htext hbefore hafter hflag
  exact ⟨rfl, h1, h2, main_without_scale encodeText opens png prog text after htext hafter⟩

theorem main_scale_option_witness :
    (¬ ("hello" = "-h" ∨ "hello" = "--help") ∧ isScaleFlag "-s" ∧
      integerValue "-3" = some (-3) ∧ (-2147483648 : Int) ≤ -3 ∧ (-3 : Int) ≤ INT_MAX) ∧
    (atoi "-3" = -3 ∧
    ((-3 : Int) ≤ 0 →
      main ("qr-gen" :: "hello" :: (optionArgs [] ++ "-s" :: "-3" :: optionArgs []))
          (fun _ => .ok unitDark) (fun _ => true) acceptAll
        = main ("qr-gen" :: "hello" :: (optionArgs [] ++ "-s" :: "10" :: optionArgs []))
          (fun _ => .ok unitDark) (fun _ => true) acceptAll) ∧
    (∃ m, main ("qr-gen" :: "hello" :: (optionArgs [] ++ "-s" :: "-3" :: optionArgs []))
        (fun _ => .ok unitDark) (fun _ => true) acceptAll = .ok m ∧
      (∀ sc f o, m.saved = some (sc, f, o) → sc = if (-3 : Int) ≤ 0 then 10 else -3) ∧
      (∀ qr, (fun _ => .ok unitDark : String → Except String QrCode) "hello" = .ok qr →
        ∃ f o, m.saved = some (if (-3 : Int) ≤ 0 then 10 else -3, f, o))) ∧
    (∃ m, main ("qr-gen" :: "hello" :: optionArgs []) (fun _ => .ok unitDark)
        (fun _ => true) acceptAll = .ok m ∧
      (∀ sc f o, m.saved = some (sc, f, o) → sc = 10) ∧
      (∀ qr, (fun _ => .ok unitDark : String → Except String QrCode) "hello" = .ok qr →
        ∃ f o, m.saved = some (10, f, o)))) :=
  ⟨⟨by decide, Or.inl rfl, by decide, by decide, by decide⟩,
    main_scale_option (fun _ => .ok unitDark) (fun _ => true) acceptAll "qr-gen" "hello"
      [] [] "-s" "-3" (-3) (by decide) (by simp) (by simp) (Or.inl rfl) (by decide)
      (by decide) (by decide)⟩

/-- C6 as stated fails outside the range of `int`: the value `-2147483649` is an
integer `n ≤ 0`, yet `atoi` yields 2147483647 and `main` passes that scale, not
10; the value `4294967297` is an integer `n > 0`, yet `atoi` yields 1 and `main`
renders the 1x1 grid at scale 1 (9 rows), not at scale `n`. -/
theorem scale_outside_int_range :
    (integerValue "-2147483649" = some (-2147483649) ∧ (-2147483649 : Int) ≤ 0 ∧
      atoi "-2147483649" = 2147483647) ∧
    main ["qr-gen", "hello", "-s", "-2147483649"] (fun _ => .ok unitDark) (fun _ => true)
        rejectAll
      = .ok ⟨1, false, some (2147483647, "qrcode.png",
          ⟨1, some (2147483639, 2147483639, false), []⟩)⟩ ∧
    main ["qr-gen", "hello", "-s", "10"] (fun _ => .ok unitDark) (fun _ => true) rejectAll
      = .ok ⟨1, false, some (10, "qrcode.png", ⟨1, some (90, 90, false), []⟩)⟩ ∧
    (integerValue "4294967297" = some 4294967297 ∧ (0 : Int) < 4294967297 ∧
      atoi "4294967297" = 1) ∧
    (match main ["qr-gen", "hello", "-s", "4294967297"] (fun _ => .ok unitDark)
        (fun _ => true) acceptAll with
      | .ok m => some (m.exitCode,
          m.saved.map (fun s => (s.1, s.2.2.created, s.2.2.writes.length)))
      | .error _ => none) = some (0, some (1, some (9, 9, true), 9)) :=
  ⟨by decide, by rfl, by rfl, by decide, by rfl⟩

/-- C7: for every grid and scale, `savePng` returns (0 or 1) without a fault.
If the file cannot be opened it returns 1 without constructing the encoder or
handing it a row; if the constructor throws it returns 1 and hands no row; if
the `write` call for row `k` throws, that call is the last one and the result
is 1; the result is 0 only when the file opened, the constructor returned and
all `pixels` rows were accepted. `main` returns 0 or 1; it returns 1 whenever
`savePng` returned non-zero and whenever the symbol encoder throws, so exit
code 0 means help was printed or `savePng` returned 0. -/
theorem savePng_failure_reported {σ : Type} (qr : QrCode) (scale : Int) (filename : String)
    (opens : String → Bool) (png : TinyPngOut σ) (argv : List String)
    (encodeText : String → Except String QrCode) :
    (∃ o, savePng qr scale filename opens png = .ok o ∧
      (opens filename = false → o = ⟨1, none, []⟩) ∧
      (∀ e, opens filename = true →
        png.create (toUint32 (pixelCount qr.getSize scale))
          (toUint32 (pixelCount qr.getSize scale)) = .error e →
        o = ⟨1, some (toUint32 (pixelCount qr.getSize scale),
          toUint32 (pixelCount qr.getSize scale), false), []⟩) ∧
      (∀ k call, o.writes[k]? = some call → call.accepted = false →
        k + 1 = o.writes.length ∧ o.ret = 1) ∧
      (o.ret = 0 ∨ o.ret = 1) ∧
      (o.ret = 0 →
        opens filename = true ∧
        o.created = some (toUint32 (pixelCount qr.getSize scale),
          toUint32 (pixelCount qr.getSize scale), true) ∧
        ((o.writes.length : Nat) : Int) = pixelCount qr.getSize scale ∧
        ∀ call ∈ o.writes, call.accepted = true)) ∧
    (∃ m, main argv encodeText opens png = .ok m ∧
      (m.exitCode = 0 ∨ m.exitCode = 1) ∧
      (∀ sc f o, m.saved = some (sc, f, o) →
        (∃ text grid, encodeText text = .ok grid ∧ savePng grid sc f opens png = .ok o) ∧
        (o.ret ≠ 0 → m.exitCode = 1)) ∧
      (∀ prog text options e, argv = prog :: text :: options →
        ¬ (text = "-h" ∨ text = "--help") → encodeText text = .error e →
        m.exitCode = 1 ∧ m.saved = none) ∧
      (m.exitCode = 0 →
        (m.usage = true ∧ m.saved = none) ∨ ∃ sc f o, m.saved = some (sc, f, o) ∧ o.ret = 0)) := by
  constructor
  · obtain ⟨h1, h2, h3⟩ := expectedOutcome_shape qr scale filename opens png
    refine ⟨expectedOutcome qr scale filename opens png, savePng_eq _ _ _ _ _,
      expectedOutcome_unopened qr scale filename opens png,
      fun e ho hc => expectedOutcome_rejected qr scale filename opens png ho e hc,
      fun k call hk hacc => (h1 k call hk).2.2.2 hacc, h2, ?_⟩
    intro hret
    obtain ⟨a, b, c, d⟩ := h3 hret
    refine ⟨a, b, by omega, ?_⟩
    intro call hmem
    obtain ⟨k, hk⟩ := List.getElem?_of_mem hmem
    by_contra hacc
    have hf : call.accepted = false := by simpa using hacc
    have := ((h1 k call hk).2.2.2 hf).2
    rw [hret] at this
    exact absurd this (by decide)
  · obtain ⟨e1, e2, e3⟩ := expectedMain_exit argv encodeText opens png
    refine ⟨expectedMain argv encodeText opens png, main_eq _ _ _ _, e1, ?_, e3, e2⟩
    intro sc f o hs
    obtain ⟨prog, text, options, grid, _, _, _, he, ho, hex⟩ :=
      expectedMain_saved argv encodeText opens png sc f o hs
    refine ⟨⟨text, grid, he, by rw [ho]; exact savePng_eq _ _ _ _ _⟩, ?_⟩
    intro hret
    rw [hex, if_pos hret]

/-- C9 (what the code does): with the help flag after the text, `main` takes
the unknown-argument path: it prints the usage text, renders nothing and
returns 1, for `-h` and for `--help`; only as the first argument does the flag
give exit code 0. -/
theorem main_help_after_text {σ : Type} (encodeText : String → Except String QrCode)
    (opens : String → Bool) (png : TinyPngOut σ) :
    main ["qr-gen", "hello", "-h"] encodeText opens png = .ok ⟨1, true, none⟩ ∧
    main ["qr-gen", "hello", "--help"] encodeText opens png = .ok ⟨1, true, none⟩ ∧
    main ["qr-gen", "hello", "-s", "5", "-h"] encodeText opens png = .ok ⟨1, true, none⟩ ∧
    main ["qr-gen", "-h"] encodeText opens png = .ok ⟨0, true, none⟩ ∧
    main ["qr-gen", "--help"] encodeText opens png = .ok ⟨0, true, none⟩ :=
  ⟨rfl, rfl, rfl, rfl, rfl⟩

/-- C10: for a grid of side `size ≥ 1`, a scale `≥ 1` and a loop position
`0 ≤ px, py < pixels` with the row buffer at its length `3 * pixels`, the body
of the pixel loop runs without a fault: the divisor `scale` is not zero, the
three offsets computed in `size_t` are `3*px`, `3*px+1`, `3*px+2` and lie below
the buffer's length, and no query of the grid falls outside `[0, size)` (such a
query would be the fault `moduleOutOfRange`); the buffer keeps its length. The
whole run of `savePng` is free of faults, and so is `main`, which passes
`savePng` a scale `≥ 1` on every command line. -/
theorem savePng_loop_safe {σ : Type} (qr : QrCode) (scale : Int) (_hsize : 1 ≤ qr.getSize)
    (hscale : 1 ≤ scale) (px py : Nat) (hpx : (px : Int) < pixelCount qr.getSize scale)
    (hpy : (py : Int) < pixelCount qr.getSize scale) (row : List Nat)
    (hrow : row.length = 3 * (pixelCount qr.getSize scale).toNat)
    (filename : String) (opens : String → Bool) (png : TinyPngOut σ) (argv : List String)
    (encodeText : String → Except String QrCode) :
    scale ≠ 0 ∧
    (sizeAdd (sizeMul (toSizeT (px : Int)) 3) 0 = 3 * px ∧
      sizeAdd (sizeMul (toSizeT (px : Int)) 3) 1 = 3 * px + 1 ∧
      sizeAdd (sizeMul (toSizeT (px : Int)) 3) 2 = 3 * px + 2 ∧
      3 * px + 2 < row.length) ∧
    (∀ x y, ¬ (0 ≤ x ∧ x < qr.getSize ∧ 0 ≤ y ∧ y < qr.getSize) →
      qr.getModule x y = .error .moduleOutOfRange) ∧
    (∃ r, storePixel qr scale qr.getSize (py : Int) (px : Int) row = .ok r ∧
      r.length = row.length) ∧
    (∃ o, savePng qr scale filename opens png = .ok o) ∧
    (∃ m, main argv encodeText opens png = .ok m ∧
      ∀ sc f o, m.saved = some (sc, f, o) → 1 ≤ sc) := by
  have hr := pixelCount_range qr.getSize scale
  have hpxI : (px : Int) ≤ 2147483647 := by omega
  have h0 := pixelOffset hpxI 0 (by omega)
  have h1 := pixelOffset hpxI 1 (by omega)
  have h2 := pixelOffset hpxI 2 (by omega)
  have hlen : 3 * px + 2 < row.length := by omega
  refine ⟨by omega, ⟨by simpa using h0, h1, h2, hlen⟩, ?_, ?_, ⟨_, savePng_eq _ _ _ _ _⟩, ?_⟩
  · intro x y hxy
    unfold QrCode.getModule
    exact if_neg hxy
  · refine ⟨_, storePixel_ok qr scale (py : Int) px row (by omega) hpxI hlen, ?_⟩
    simp
  · refine ⟨_, main_eq _ _ _ _, ?_⟩
    intro sc f o hs
    obtain ⟨_, _, options, _, _, _, hp, _, _, _⟩ :=
      expectedMain_saved argv encodeText opens png sc f o hs
    exact parseOptions_scale_pos options "qrcode.png" 10 (by decide) f sc hp

theorem savePng_loop_safe_witness :
    (1 ≤ unitDark.getSize ∧ (1 : Int) ≤ 1 ∧ ((4 : Nat) : Int) < pixelCount unitDark.getSize 1 ∧
      (List.replicate 27 0).length = 3 * (pixelCount unitDark.getSize 1).toNat) ∧
    ((1 : Int) ≠ 0 ∧
    (sizeAdd (sizeMul (toSizeT ((4 : Nat) : Int)) 3) 0 = 3 * 4 ∧
      sizeAdd (sizeMul (toSizeT ((4 : Nat) : Int)) 3) 1 = 3 * 4 + 1 ∧
      sizeAdd (sizeMul (toSizeT ((4 : Nat) : Int)) 3) 2 = 3 * 4 + 2 ∧
      3 * 4 + 2 < (List.replicate 27 0).length) ∧
    (∀ x y, ¬ (0 ≤ x ∧ x < unitDark.getSize ∧ 0 ≤ y ∧ y < unitDark.getSize) →
      unitDark.getModule x y = .error .moduleOutOfRange) ∧
    (∃ r, storePixel unitDark 1 unitDark.getSize ((4 : Nat) : Int) ((4 : Nat) : Int)
        (List.replicate 27 0) = .ok r ∧
      r.length = (List.replicate 27 0).length) ∧
    (∃ o, savePng unitDark 1 "qrcode.png" (fun _ => true) acceptAll = .ok o) ∧
    (∃ m, main ["qr-gen", "hello", "-s", "0"] (fun _ => .ok unitDark) (fun _ => true)
        acceptAll = .ok m ∧
      ∀ sc f o, m.saved = some (sc, f, o) → 1 ≤ sc)) :=
  ⟨⟨by decide, by decide, by decide, by decide⟩,
    savePng_loop_safe unitDark 1 (by decide) (by decide) 4 4 (by decide) (by decide)
      (List.replicate 27 0) (by decide) "qrcode.png" (fun _ => true) acceptAll
      ["qr-gen", "hello", "-s", "0"] (fun _ => .ok unitDark)⟩

end QrGen
